import Mathlib

/-!
# NeuroBlocks graph compiler: a shallow embedding in Lean 4

This file embeds the graph-compiler core of the NeuroBlocks repository
(`backend/app/compiler/validator.py`, `backend/app/compiler/shape_inference.py`,
`backend/compiler/model_builder.py`, `backend/compiler/normalize_graph.py`)
and proves the testable properties of its specification against the embedding.

Modelling conventions:
* Python `dict` values keyed by node id are modelled either as association
  lists (with last-write-wins lookup, `lastAssoc?`, matching dict-comprehension
  overwrite semantics) or, for the mutable colour/in-degree tables, as total
  functions `String → α` updated pointwise.
* Python exceptions are modelled by the `PyErr` inductive; functions that can
  raise return `Except PyErr α`.
* Python integer floor division `//` is `Int.fdiv` guarded by a
  `ZeroDivisionError` case; Python list indexing (including negative indices)
  is `pyIdx` / `pySet` with an `IndexError` case.
* Recursive/iterative graph traversals are written with an explicit fuel
  argument; the chosen fuel is proved sufficient wherever a theorem depends
  on it, so the embedded functions agree with the Python ones on all inputs
  that matter to the statements below.
* Parameter dictionaries hold `PyVal` values (None, int, bool, string, list);
  floats do not occur in the graph payloads the compiler consumes.
-/

/-- Python scalar/list values as they occur in node parameter dicts. -/
inductive PyVal where
  | vNone
  | vInt (n : Int)
  | vBool (b : Bool)
  | vStr (s : String)
  | vList (xs : List PyVal)
  deriving Repr, Inhabited

/-- Python exceptions raised by the compiler core. -/
inductive PyErr where
  | validationError (message : String) (node_id : Option String)
  | shapeError (message : String) (node_id : Option String)
  | keyError
  | indexError
  | valueError
  | typeError
  | zeroDivisionError
  | runtimeError (message : String)
  deriving Repr, DecidableEq, Inhabited

/-- Python truthiness of a `PyVal`. -/
def PyVal.truthy : PyVal → Bool
  | .vNone => false
  | .vInt n => n != 0
  | .vBool b => b
  | .vStr s => s != ""
  | .vList xs => !xs.isEmpty

/-- Python `str.lower()` (ASCII), computed on the character list. -/
def pyLower (s : String) : String := String.mk (s.data.map Char.toLower)

/-- Python `str.strip()` (default whitespace), computed on the character
list. -/
def pyStrip (s : String) : String :=
  String.mk
    (((s.data.dropWhile Char.isWhitespace).reverse.dropWhile
      Char.isWhitespace).reverse)

/-- Digit-string parsing used by Python `int(...)`. -/
def parseNatChars : List Char → Option Nat
  | [] => none
  | l =>
    if l.all Char.isDigit then
      some (l.foldl (fun acc c => acc * 10 + (c.toNat - 48)) 0)
    else none

/-- Python `int(s)` on a string: strip whitespace, optional sign, digits. -/
def pyStrToInt? (s : String) : Option Int :=
  match (pyStrip s).data with
  | '-' :: rest => (parseNatChars rest).map (fun n => -(n : Int))
  | '+' :: rest => (parseNatChars rest).map (fun n => (n : Int))
  | l => (parseNatChars l).map (fun n => (n : Int))

/-- Python `a or b` (returns the first truthy operand, else the last). -/
def pyOr (a b : PyVal) : PyVal := if a.truthy then a else b

/-- Python `int(x)` on the values that occur in parameter dicts. -/
def pyToInt : PyVal → Except PyErr Int
  | .vInt n => .ok n
  | .vBool b => .ok (if b then 1 else 0)
  | .vStr s =>
    match pyStrToInt? s with
    | some n => .ok n
    | none => .error .valueError
  | .vNone => .error .typeError
  | .vList _ => .error .typeError

/-- Python `a // b` on ints: floor division, `ZeroDivisionError` on `b = 0`. -/
def pyFloorDiv (a b : Int) : Except PyErr Int :=
  if b = 0 then .error .zeroDivisionError else .ok (Int.fdiv a b)

/-- Python list indexing `xs[i]` with negative-index wrap-around. -/
def pyIdx {α : Type} (xs : List α) (i : Int) : Except PyErr α :=
  let n : Int := xs.length
  let j := if i < 0 then i + n else i
  if h : 0 ≤ j ∧ j < n then
    .ok (xs.get ⟨j.toNat, by
      have := h.2
      omega⟩)
  else
    .error .indexError

/-- Python list item assignment `xs[i] = v` with negative-index wrap-around. -/
def pySet {α : Type} (xs : List α) (i : Int) (v : α) : Except PyErr (List α) :=
  let n : Int := xs.length
  let j := if i < 0 then i + n else i
  if 0 ≤ j ∧ j < n then
    .ok (xs.set j.toNat v)
  else
    .error .indexError

/-- Python `str` of an int list, e.g. `"[16, 28, 28]"`. -/
def pyStrIntList (xs : List Int) : String :=
  "[" ++ String.intercalate ", " (xs.map toString) ++ "]"

/-- Lookup in an association list built like a Python dict comprehension
(later bindings overwrite earlier ones). -/
def lastAssoc? {α : Type} (l : List (String × α)) (k : String) : Option α :=
  l.foldl (fun acc kv => if kv.1 == k then some kv.2 else acc) none

/-- Keys of a Python dict in insertion (first-occurrence) order. -/
def firstDedup (l : List String) : List String :=
  l.foldl (fun acc k => if acc.contains k then acc else acc ++ [k]) []

/-- Extract an int list from a `PyVal` list value (parameter dicts produced by
the normalizer hold integer shape lists). -/
def pyIntList : PyVal → Except PyErr (List Int)
  | .vList xs => xs.mapM (fun v => match v with
      | .vInt n => Except.ok n
      | .vBool b => Except.ok (if b then (1 : Int) else 0)
      | _ => Except.error .typeError)
  | _ => .error .typeError

/-- A parameter dict: string keys to Python values. -/
def Params := List (String × PyVal)
  deriving Repr, Inhabited

/-- Python `p.get(k, dflt)`. -/
def Params.get (p : Params) (k : String) (dflt : PyVal) : PyVal :=
  match lastAssoc? p k with
  | some v => v
  | none => dflt

/-- Python `p.get(k)` (defaulting to `None`). -/
def Params.getN (p : Params) (k : String) : PyVal := p.get k .vNone

/-- `GraphNode` from `models/schemas.py` (the `position` field is ignored by
the compiler core and omitted). -/
structure GraphNode where
  id : String
  type : String
  params : Params
  deriving Repr, Inhabited

/-- `GraphEdge` from `models/schemas.py`. -/
structure GraphEdge where
  id : String
  source : String
  sourceHandle : String
  target : String
  targetHandle : String
  deriving Repr, DecidableEq, Inhabited

/-- `GraphSchema` from `models/schemas.py` (metadata/version are non-semantic
and omitted). -/
structure GraphSchema where
  nodes : List GraphNode
  edges : List GraphEdge
  deriving Repr, Inhabited

/-- The node ids of a graph, in node-list order (with duplicates). -/
def GraphSchema.ids (g : GraphSchema) : List String := g.nodes.map (·.id)

/-- `nodes_by_id = {n.id: n for n in graph.nodes}` as an assoc list. -/
def GraphSchema.nodesById (g : GraphSchema) : List (String × GraphNode) :=
  g.nodes.map (fun n => (n.id, n))

/-- Dict lookup in `nodes_by_id` (later nodes with the same id overwrite). -/
def GraphSchema.findNode? (g : GraphSchema) (nid : String) : Option GraphNode :=
  lastAssoc? g.nodesById nid

/-- Membership test `nid in nodes_by_id`. -/
def GraphSchema.hasId (g : GraphSchema) (nid : String) : Bool :=
  g.nodes.any (fun n => n.id == nid)

/-- The adjacency list `adj[v]` built by the edge loop of `validate_graph` /
`topological_sort`: targets of edges with source `v`, in edge order. -/
def GraphSchema.adj (g : GraphSchema) (v : String) : List String :=
  (g.edges.filter (fun e => e.source == v)).map (·.target)

/-- The incoming-source list `incoming[v]`: sources of edges with target `v`,
in edge order. -/
def GraphSchema.incoming (g : GraphSchema) (v : String) : List String :=
  (g.edges.filter (fun e => e.target == v)).map (·.source)

/-- All edge endpoints name existing nodes (checked edge-by-edge by
`validate_graph`; a violation in `topological_sort` is a `KeyError`). -/
def GraphSchema.edgesWF (g : GraphSchema) : Bool :=
  g.edges.all (fun e => g.hasId e.source && g.hasId e.target)

/-- `get_input_nodes` from `validator.py`. -/
def get_input_nodes (graph : GraphSchema) (node_id : String) : List String :=
  (graph.edges.filter (fun e => e.target == node_id)).map (·.source)

/-- `get_input_node` from `validator.py`: `sources[0] if sources else None`. -/
def get_input_node (graph : GraphSchema) (node_id : String) : Option String :=
  (get_input_nodes graph node_id).head?

/-- `get_input_by_handle` from `validator.py`. -/
def get_input_by_handle (graph : GraphSchema) (node_id : String)
    (handle_id : String) : Option String :=
  ((graph.edges.filter
      (fun e => e.target == node_id && e.targetHandle == handle_id)).map
    (·.source)).head?

/-- Python truthiness of a string (`if src:` on an optional node id). -/
def strTruthy (s : String) : Bool := s != ""

/-- Truthiness of `src` where `src : str | None` (`if src:`). -/
def optStrTruthy : Option String → Bool
  | none => false
  | some s => strTruthy s

/-! ## `validator.py`: `validate_graph` -/

/-- DFS colours (`WHITE, GRAY, BLACK = 0, 1, 2`). -/
inductive Color where
  | white
  | gray
  | black
  deriving Repr, DecidableEq, Inhabited

/-- A colour table `color[node_id]`, total over strings (every id starts
white). -/
def ColorMap := String → Color

/-- Pointwise update of a colour table. -/
def ColorMap.set (c : ColorMap) (k : String) (v : Color) : ColorMap :=
  fun x => if x == k then v else c x

/-- The `for neighbor in adj[node_id]` loop inside `dfs`: a gray neighbour
reports a cycle at once; a white neighbour is visited with the supplied
`visit` continuation (the recursive `dfs` call one fuel level down), whose
`True` result also returns at once; black neighbours are skipped. -/
def dfsScan (visit : ColorMap → String → Bool × ColorMap)
    (color : ColorMap) : List String → Bool × ColorMap
  | [] => (false, color)
  | nb :: rest =>
    match color nb with
    | .gray => (true, color)
    | .white =>
      match visit color nb with
      | (true, c) => (true, c)
      | (false, c) => dfsScan visit c rest
    | .black => dfsScan visit color rest

/-- The recursive `dfs` of the cycle check in `validate_graph`:
colour the node gray, scan its neighbours, then colour it black.  `fuel`
bounds the recursion depth; it is proved sufficient below for the fuel
`validate_graph` uses (one unit per white node entered). -/
def dfsVisit (adj : String → List String) : Nat → ColorMap → String →
    Bool × ColorMap
  | 0, color, _ => (true, color)
  | fuel + 1, color, u =>
    match dfsScan (dfsVisit adj fuel) (color.set u .gray) (adj u) with
    | (true, c) => (true, c)
    | (false, c) => (false, c.set u .black)

/-- The `for node in graph.nodes` driver of the cycle check: run `dfs` from
every still-white node, reporting `true` as soon as one call finds a cycle.
Each Python `dfs(node.id)` call gets recursion depth at most the number of
distinct white ids, so fuel `g.nodes.length + 1` per call is sufficient. -/
def cycleCheck (g : GraphSchema) : Bool :=
  (g.nodes.foldl
    (fun (acc : Bool × ColorMap) n =>
      match acc with
      | (true, c) => (true, c)
      | (false, c) =>
        if c n.id = .white then dfsVisit g.adj (g.nodes.length + 1) c n.id
        else (false, c))
    (false, fun _ => .white)).1

/-- One step of the reachability worklist (`while stack:` in
`validate_graph`): pop a node, skip it if already visited, otherwise mark it
visited and push its neighbours.  The stack is kept top-first. -/
def reachLoop (adj : String → List String) :
    Nat → List String → List String → List String
  | 0, visited, _ => visited
  | _ + 1, visited, [] => visited
  | fuel + 1, visited, current :: stack =>
    if visited.contains current then reachLoop adj fuel visited stack
    else reachLoop adj fuel (current :: visited) ((adj current).reverse ++ stack)

/-- The set of nodes reachable from `start` as computed by the traversal in
`validate_graph` (as a list without duplicates). -/
def reachableFrom (g : GraphSchema) (start : String) : List String :=
  reachLoop g.adj (2 * (g.edges.length + g.nodes.length) + 2) [] [start]

/-- The per-edge endpoint checks of `validate_graph`
(`Edge references unknown source/target node`). -/
def checkEdges (g : GraphSchema) : Except PyErr Unit :=
  g.edges.foldlM
    (fun _ e =>
      if !(g.hasId e.source) then
        .error (.validationError
          ("Edge references unknown source node: " ++ e.source) none)
      else if !(g.hasId e.target) then
        .error (.validationError
          ("Edge references unknown target node: " ++ e.target) none)
      else .ok ())
    ()

/-- The per-type incoming-arity checks at the end of `validate_graph`. -/
def checkArity (g : GraphSchema) : Except PyErr Unit :=
  g.nodes.foldlM
    (fun _ n =>
      if n.type == "input" then .ok ()
      else if n.type == "add" then
        if (g.incoming n.id).length ≠ 2 then
          .error (.validationError
            ("Add node requires exactly 2 inputs, got " ++
              toString (g.incoming n.id).length) (some n.id))
        else .ok ()
      else if n.type == "concat" then
        if (g.incoming n.id).length < 2 then
          .error (.validationError
            ("Concat node requires at least 2 inputs, got " ++
              toString (g.incoming n.id).length) (some n.id))
        else .ok ()
      else
        if (g.incoming n.id).length == 0 then
          .error (.validationError
            (n.type ++ " node has no input connection") (some n.id))
        else .ok ())
    ()

/-- `validate_graph` from `validator.py`.  Stages in source order: empty
check, input/output uniqueness, edge-endpoint checks, cycle detection,
reachability from the input node, per-type arity.  (The unreachable-node
error message lists node types in node-list order rather than Python set
iteration order; nothing else differs.) -/
def validate_graph (graph : GraphSchema) : Except PyErr Unit := do
  if graph.nodes.isEmpty then
    throw (.validationError "Graph has no nodes" none)
  let input_nodes := graph.nodes.filter (fun n => n.type == "input")
  let output_nodes := graph.nodes.filter (fun n => n.type == "output")
  if input_nodes.length == 0 then
    throw (.validationError "Graph must have an Input node" none)
  if input_nodes.length > 1 then
    throw (.validationError "Graph must have exactly one Input node" none)
  if output_nodes.length == 0 then
    throw (.validationError "Graph must have an Output node" none)
  if output_nodes.length > 1 then
    throw (.validationError "Graph must have exactly one Output node" none)
  let input_node := input_nodes.head!
  let output_node := output_nodes.head!
  checkEdges graph
  if cycleCheck graph then
    throw (.validationError "Graph contains a cycle" none)
  let reachable := reachableFrom graph input_node.id
  let unreachableIds :=
    (firstDedup graph.ids).filter (fun i => !(reachable.contains i))
  if !unreachableIds.isEmpty then
    throw (.validationError
      ("Nodes not reachable from Input: " ++
        String.intercalate ", "
          (unreachableIds.map (fun i =>
            match graph.findNode? i with
            | some n => n.type
            | none => ""))) none)
  if !(reachable.contains output_node.id) then
    throw (.validationError "Output node is not reachable from Input" none)
  checkArity graph

/-! ## `validator.py`: `topological_sort` (Kahn's algorithm) -/

/-- The initial in-degree table `in_degree[v]` after the edge loop:
the number of edges targeting `v`. -/
def GraphSchema.indeg0 (g : GraphSchema) (v : String) : Int :=
  ((g.edges.filter (fun e => e.target == v)).length : Int)

/-- The inner `for neighbor in adj[node]` loop of Kahn's algorithm:
decrement each neighbour's in-degree and enqueue it when it reaches zero. -/
def kahnScan (indeg : String → Int) (queue : List String) :
    List String → (String → Int) × List String
  | [] => (indeg, queue)
  | nb :: rest =>
    let d := indeg nb - 1
    let indeg' := fun x => if x == nb then d else indeg x
    let queue' := if d == 0 then queue ++ [nb] else queue
    kahnScan indeg' queue' rest

/-- The `while queue:` loop of Kahn's algorithm (`queue.pop(0)` then scan the
dequeued node's neighbours).  `fuel` bounds the iteration count; the fuel
used by `topological_sort` is proved sufficient below. -/
def kahnLoop (adj : String → List String) :
    Nat → (String → Int) → List String → List String → List String
  | 0, _, _, result => result
  | fuel + 1, indeg, queue, result =>
    match queue with
    | [] => result
    | node :: rest =>
      let result' := result ++ [node]
      let (indeg', queue') := kahnScan indeg rest (adj node)
      kahnLoop adj fuel indeg' queue' result'

/-- `topological_sort` from `validator.py`.  An edge endpoint that is not a
node id raises a `KeyError` while the adjacency dict is built; otherwise
Kahn's algorithm runs, seeded with the zero-in-degree ids in node-list
(dict-insertion) order. -/
def topological_sort (graph : GraphSchema) : Except PyErr (List String) :=
  if graph.edgesWF then
    let ids := firstDedup graph.ids
    let queue := ids.filter (fun v => graph.indeg0 v == 0)
    .ok (kahnLoop graph.adj (graph.nodes.length + 1) graph.indeg0 queue [])
  else
    .error .keyError

/-! ## `shape_inference.py`: `infer_shapes` -/

/-- The shape dict `node_id -> list[int]` built by `infer_shapes`. -/
def ShapeMap := List (String × List Int)
  deriving Repr, DecidableEq, Inhabited

/-- Dict lookup (`shapes.get(k)` / `k in shapes`). -/
def ShapeMap.find? (m : ShapeMap) (k : String) : Option (List Int) :=
  lastAssoc? m k

/-- Dict assignment `shapes[k] = v` (overwrites in place, appends new keys). -/
def ShapeMap.insert (m : ShapeMap) (k : String) (v : List Int) : ShapeMap :=
  if List.any m (fun kv => kv.1 == k) then
    List.map (fun kv => if kv.1 == k then (k, v) else kv) m
  else List.append m [(k, v)]

/-- The empty shape dict. -/
def ShapeMap.empty : ShapeMap := []

/-- The inner `for i, (a, b) in enumerate(zip(reference, s))` check of the
`concat` branch: note the `zip` silently truncates to the shorter shape. -/
def concatZipGo (node_id : String) (dim : Int) (reference s : List Int) :
    Nat → List (Int × Int) → Except PyErr Unit
  | _, [] => .ok ()
  | i, (a, b) :: rest =>
    if (i : Int) ≠ dim ∧ a ≠ b then
      .error (.shapeError
        ("Concat shape mismatch at dim " ++ toString i ++ ": " ++
          pyStrIntList reference ++ " vs " ++ pyStrIntList s)
        (some node_id))
    else concatZipGo node_id dim reference s (i + 1) rest

/-- The `for s in in_shapes[1:]` validation loop of the `concat` branch. -/
def concatCheck (node_id : String) (dim : Int) (reference : List Int) :
    List (List Int) → Except PyErr Unit
  | [] => .ok ()
  | s :: rest => do
    concatZipGo node_id dim reference s 0 (reference.zip s)
    concatCheck node_id dim reference rest

/-- The default input shape `[1, 28, 28]` as a parameter value. -/
def defaultShapeVal : PyVal := .vList [.vInt 1, .vInt 28, .vInt 28]

/-- The `input` branch of `infer_shapes`:
`shape = input_shape or tuple(p.get("shape", [1, 28, 28]))`. -/
def inputRule (input_shape : Option (List Int)) (shapes : ShapeMap)
    (node_id : String) (p : Params) : Except PyErr ShapeMap :=
  match input_shape with
  | some l =>
    if l.isEmpty then do
      let s ← pyIntList (p.get "shape" defaultShapeVal)
      .ok (shapes.insert node_id s)
    else .ok (shapes.insert node_id l)
  | none => do
    let s ← pyIntList (p.get "shape" defaultShapeVal)
    .ok (shapes.insert node_id s)

/-- The `output` branch of `infer_shapes`:
`if src and src in shapes: shapes[node_id] = shapes[src]` — no error is
raised when the upstream shape is unavailable; the node is skipped. -/
def outputRule (graph : GraphSchema) (shapes : ShapeMap) (node_id : String) :
    Except PyErr ShapeMap :=
  match get_input_node graph node_id with
  | some src =>
    if strTruthy src then
      match shapes.find? src with
      | some sh => .ok (shapes.insert node_id sh)
      | none => .ok shapes
    else .ok shapes
  | none => .ok shapes

/-- The `linear` branch of `infer_shapes`. -/
def linearRule (graph : GraphSchema) (shapes : ShapeMap) (node_id : String)
    (p : Params) : Except PyErr ShapeMap :=
  match get_input_node graph node_id with
  | none => .error (.shapeError "Linear node has no input" (some node_id))
  | some src =>
    match shapes.find? src with
    | none => .error (.shapeError "Linear node has no input" (some node_id))
    | some in_shape => do
      -- `in_features` is computed (and can raise on an empty shape) but is
      -- not used by the shape rule.
      let _ ←
        if in_shape.length > 1 then .ok (in_shape.prod)
        else pyIdx in_shape 0
      let out_features ← pyToInt (p.get "out_features" (.vInt 128))
      .ok (shapes.insert node_id [out_features])

/-- The `conv2d` branch of `infer_shapes`:
`h_out = (h_in + 2*pad - k) // s + 1` (and symmetrically for `w`). -/
def conv2dRule (graph : GraphSchema) (shapes : ShapeMap) (node_id : String)
    (p : Params) : Except PyErr ShapeMap :=
  match get_input_node graph node_id with
  | none => .error (.shapeError "Conv2d node has no input" (some node_id))
  | some src =>
    match shapes.find? src with
    | none => .error (.shapeError "Conv2d node has no input" (some node_id))
    | some in_shape =>
      match in_shape with
      | [c_in, h_in, w_in] => do
        let _ := c_in
        let c_out ← pyToInt (p.get "out_channels" (.vInt 32))
        let k ← pyToInt (p.get "kernel_size" (.vInt 3))
        let s ← pyToInt (p.get "stride" (.vInt 1))
        let pad ← pyToInt (p.get "padding" (.vInt 0))
        let q ← pyFloorDiv (h_in + 2 * pad - k) s
        let h_out := q + 1
        let q' ← pyFloorDiv (w_in + 2 * pad - k) s
        let w_out := q' + 1
        if h_out ≤ 0 ∨ w_out ≤ 0 then
          .error (.shapeError
            ("Conv2d output dimensions are non-positive: (" ++
              toString c_out ++ ", " ++ toString h_out ++ ", " ++
              toString w_out ++ ")")
            (some node_id))
        else .ok (shapes.insert node_id [c_out, h_out, w_out])
      | _ =>
        .error (.shapeError
          ("Conv2d expects 3D input (C, H, W), got shape " ++
            pyStrIntList in_shape)
          (some node_id))

/-- The `maxpool2d` branch of `infer_shapes`:
`h_out = (h_in - k) // s + 1` — the padding parameter is never read. -/
def maxpool2dRule (graph : GraphSchema) (shapes : ShapeMap) (node_id : String)
    (p : Params) : Except PyErr ShapeMap :=
  match get_input_node graph node_id with
  | none => .error (.shapeError "MaxPool2d node has no input" (some node_id))
  | some src =>
    match shapes.find? src with
    | none =>
      .error (.shapeError "MaxPool2d node has no input" (some node_id))
    | some in_shape =>
      match in_shape with
      | [c, h_in, w_in] => do
        let k ← pyToInt (p.get "kernel_size" (.vInt 2))
        let s ← pyToInt (p.get "stride" (.vInt k))
        let q ← pyFloorDiv (h_in - k) s
        let h_out := q + 1
        let q' ← pyFloorDiv (w_in - k) s
        let w_out := q' + 1
        if h_out ≤ 0 ∨ w_out ≤ 0 then
          .error (.shapeError
            ("MaxPool2d output dimensions are non-positive: (" ++
              toString c ++ ", " ++ toString h_out ++ ", " ++
              toString w_out ++ ")")
            (some node_id))
        else .ok (shapes.insert node_id [c, h_out, w_out])
      | _ =>
        .error (.shapeError
          ("MaxPool2d expects 3D input (C, H, W), got shape " ++
            pyStrIntList in_shape)
          (some node_id))

/-- The `adaptiveavgpool2d` branch of `infer_shapes`. -/
def adaptiveavgpool2dRule (graph : GraphSchema) (shapes : ShapeMap)
    (node_id : String) (p : Params) : Except PyErr ShapeMap :=
  match get_input_node graph node_id with
  | none =>
    .error (.shapeError "AdaptiveAvgPool2d node has no input" (some node_id))
  | some src =>
    match shapes.find? src with
    | none =>
      .error (.shapeError "AdaptiveAvgPool2d node has no input"
        (some node_id))
    | some in_shape =>
      if in_shape.length ≠ 3 then
        .error (.shapeError
          ("AdaptiveAvgPool2d expects 3D input, got shape " ++
            pyStrIntList in_shape)
          (some node_id))
      else
        -- `output_size` is subscripted; only list values are modelled.
        match p.get "output_size" (.vList [.vInt 1, .vInt 1]) with
        | .vList xs => do
          let c ← pyIdx in_shape 0
          let o0 ← pyIdx xs 0
          let h ← pyToInt o0
          let o1 ← pyIdx xs 1
          let w ← pyToInt o1
          .ok (shapes.insert node_id [c, h, w])
        | _ => .error .typeError

/-- The `flatten` branch of `infer_shapes`. -/
def flattenRule (graph : GraphSchema) (shapes : ShapeMap) (node_id : String) :
    Except PyErr ShapeMap :=
  match get_input_node graph node_id with
  | none => .error (.shapeError "Flatten node has no input" (some node_id))
  | some src =>
    match shapes.find? src with
    | none => .error (.shapeError "Flatten node has no input" (some node_id))
    | some in_shape => .ok (shapes.insert node_id [in_shape.prod])

/-- The elementwise/normalization branches of `infer_shapes`
(`relu`/`gelu`/`sigmoid`/`tanh`/`dropout` and `batchnorm`/`layernorm` have
textually identical bodies in the source). -/
def elementwiseRule (graph : GraphSchema) (shapes : ShapeMap)
    (node_id ty : String) : Except PyErr ShapeMap :=
  match get_input_node graph node_id with
  | none =>
    .error (.shapeError (ty ++ " node has no input") (some node_id))
  | some src =>
    match shapes.find? src with
    | none =>
      .error (.shapeError (ty ++ " node has no input") (some node_id))
    | some sh => .ok (shapes.insert node_id sh)

/-- The `add` branch of `infer_shapes`. -/
def addRule (graph : GraphSchema) (shapes : ShapeMap) (node_id : String) :
    Except PyErr ShapeMap :=
  let srcs := get_input_nodes graph node_id
  if srcs.length ≠ 2 then
    .error (.shapeError "Add node requires exactly 2 inputs" (some node_id))
  else do
    let s0 ← pyIdx srcs 0
    let s1 ← pyIdx srcs 1
    match shapes.find? s0, shapes.find? s1 with
    | some shape_a, some shape_b =>
      if shape_a ≠ shape_b then
        .error (.shapeError
          ("Add node shape mismatch: " ++ pyStrIntList shape_a ++ " vs " ++
            pyStrIntList shape_b)
          (some node_id))
      else .ok (shapes.insert node_id shape_a)
    | _, _ =>
      .error (.shapeError "Add node input shapes not available"
        (some node_id))

/-- The `concat` branch of `infer_shapes`. -/
def concatRule (graph : GraphSchema) (shapes : ShapeMap) (node_id : String)
    (p : Params) : Except PyErr ShapeMap :=
  let srcs := get_input_nodes graph node_id
  if srcs.length < 2 then
    .error (.shapeError "Concat node requires at least 2 inputs"
      (some node_id))
  else
    let in_shapes? := srcs.map (fun s => shapes.find? s)
    if in_shapes?.any (fun s => s.isNone) then
      .error (.shapeError "Concat node input shapes not available"
        (some node_id))
    else do
      let in_shapes := in_shapes?.reduceOption
      let dim ← pyToInt (p.get "dim" (.vInt 0))
      let reference ← pyIdx in_shapes 0
      concatCheck node_id dim reference in_shapes.tail
      let summands ← in_shapes.mapM (fun s => pyIdx s dim)
      let result ← pySet reference dim summands.sum
      .ok (shapes.insert node_id result)

/-- The default (unknown-type) branch of `infer_shapes`: pass through the
upstream shape if available, otherwise leave the node out of the dict. -/
def defaultRule (graph : GraphSchema) (shapes : ShapeMap) (node_id : String) :
    Except PyErr ShapeMap :=
  match get_input_node graph node_id with
  | some src =>
    if strTruthy src then
      match shapes.find? src with
      | some sh => .ok (shapes.insert node_id sh)
      | none => .ok shapes
    else .ok shapes
  | none => .ok shapes

/-- One iteration of the `for node_id in topo_order` loop of `infer_shapes`:
dispatch on `node.type` exactly as the `if/elif` chain of
`shape_inference.py` does. -/
def inferStep (graph : GraphSchema) (input_shape : Option (List Int))
    (shapes : ShapeMap) (node : GraphNode) : Except PyErr ShapeMap :=
  let p := node.params
  let node_id := node.id
  if node.type == "input" then inputRule input_shape shapes node_id p
  else if node.type == "output" then outputRule graph shapes node_id
  else if node.type == "linear" then linearRule graph shapes node_id p
  else if node.type == "conv2d" then conv2dRule graph shapes node_id p
  else if node.type == "maxpool2d" then maxpool2dRule graph shapes node_id p
  else if node.type == "adaptiveavgpool2d" then
    adaptiveavgpool2dRule graph shapes node_id p
  else if node.type == "flatten" then flattenRule graph shapes node_id
  else if node.type == "relu" ∨ node.type == "gelu" ∨ node.type == "sigmoid"
      ∨ node.type == "tanh" ∨ node.type == "dropout" then
    elementwiseRule graph shapes node_id node.type
  else if node.type == "batchnorm" ∨ node.type == "layernorm" then
    elementwiseRule graph shapes node_id node.type
  else if node.type == "add" then addRule graph shapes node_id
  else if node.type == "concat" then concatRule graph shapes node_id p
  else defaultRule graph shapes node_id

/-- `infer_shapes` from `shape_inference.py`: walk the topological order and
apply `inferStep` at each node. -/
def infer_shapes (graph : GraphSchema)
    (input_shape : Option (List Int) := none) : Except PyErr ShapeMap := do
  let topo_order ← topological_sort graph
  topo_order.foldlM
    (fun shapes node_id =>
      match graph.findNode? node_id with
      | some node => inferStep graph input_shape shapes node
      | none => .error .keyError)
    ShapeMap.empty

/-! ## `model_builder.py` (NeuralCanvas): `DynamicModel._build_layer` -/

/-- Generic Python dict assignment on an assoc list (`{**p, k: v}` /
`d[k] = v`): overwrite in place, append new keys. -/
def dictInsert {α : Type} (l : List (String × α)) (k : String) (v : α) :
    List (String × α) :=
  if l.any (fun kv => kv.1 == k) then
    l.map (fun kv => if kv.1 == k then (k, v) else kv)
  else l ++ [(k, v)]

/-- The operation configuration chosen by `_build_layer` for a node: which
torch module is instantiated, with which scalar arguments.  `none_` stands
for Python `None` (structural nodes); the torch modules themselves are
external. -/
inductive LayerSpec where
  | linearL (in_features out_features : Int) (bias : Bool)
  | conv2dL (in_channels out_channels kernel_size stride padding : Int)
  | batchnorm2dL (num_features : Int)
  | batchnorm1dL (num_features : Int)
  | layernormL (normalized_shape : List Int)
  | dropoutL (p : PyVal)
  | reluL
  | geluL
  | sigmoidL
  | tanhL
  | maxpool2dL (kernel_size stride : Int)
  | adaptiveavgpool2dL (out_h out_w : Int)
  | flattenL
  | identityL
  deriving Repr, Inhabited

/-- Python truthiness of an optional int list (`if in_shape:`). -/
def optListTruthy : Option (List Int) → Bool
  | none => false
  | some l => !l.isEmpty

/-- The body of `_build_layer` (NeuralCanvas backend) as a function of the
upstream shape it consulted; `none` is a structural node with no layer. -/
def build_layer_core (in_shape : Option (List Int)) (node : GraphNode) :
    Except PyErr (Option LayerSpec) :=
  let p := node.params
  if node.type == "input" ∨ node.type == "output" ∨ node.type == "add"
      ∨ node.type == "concat" then
    .ok none
  else if node.type == "linear" then do
    let in_features : Int :=
      match in_shape with
      | some l =>
        if !l.isEmpty ∧ l.length > 1 then l.prod
        else if !l.isEmpty then l.headI
        else 128
      | none => 128
    let out_features ← pyToInt (p.get "out_features" (.vInt 128))
    .ok (some (.linearL in_features out_features
      (p.get "bias" (.vBool true)).truthy))
  else if node.type == "conv2d" then do
    let in_channels : Int :=
      match in_shape with
      | some l => if !l.isEmpty then l.headI else 1
      | none => 1
    let out_channels ← pyToInt (p.get "out_channels" (.vInt 32))
    let kernel_size ← pyToInt (p.get "kernel_size" (.vInt 3))
    let stride ← pyToInt (p.get "stride" (.vInt 1))
    let padding ← pyToInt (p.get "padding" (.vInt 0))
    .ok (some (.conv2dL in_channels out_channels kernel_size stride padding))
  else if node.type == "batchnorm" then
    match in_shape with
    | some l =>
      if !l.isEmpty ∧ l.length ≥ 2 then .ok (some (.batchnorm2dL l.headI))
      else if !l.isEmpty then .ok (some (.batchnorm1dL l.headI))
      else .ok (some .identityL)
    | none => .ok (some .identityL)
  else if node.type == "layernorm" then
    match in_shape with
    | some l =>
      if !l.isEmpty then .ok (some (.layernormL l))
      else .ok (some .identityL)
    | none => .ok (some .identityL)
  else if node.type == "dropout" then
    .ok (some (.dropoutL (p.get "p" (.vInt 0))))
  else if node.type == "relu" then .ok (some .reluL)
  else if node.type == "gelu" then .ok (some .geluL)
  else if node.type == "sigmoid" then .ok (some .sigmoidL)
  else if node.type == "tanh" then .ok (some .tanhL)
  else if node.type == "maxpool2d" then do
    let kernel_size ← pyToInt (p.get "kernel_size" (.vInt 2))
    let stride ← pyToInt (p.get "stride" (.vInt 2))
    .ok (some (.maxpool2dL kernel_size stride))
  else if node.type == "adaptiveavgpool2d" then
    match p.get "output_size" (.vList [.vInt 1, .vInt 1]) with
    | .vList xs => do
      let o0 ← pyIdx xs 0
      let h ← pyToInt o0
      let o1 ← pyIdx xs 1
      let w ← pyToInt o1
      .ok (some (.adaptiveavgpool2dL h w))
    | _ => .error .typeError
  else if node.type == "flatten" then .ok (some .flattenL)
  else .ok (some .identityL)

/-- `_build_layer` (NeuralCanvas backend): the upstream shape consulted is
`shapes.get(src) if src else None` where `src = get_input_node(...)`. -/
def build_layer (graph : GraphSchema) (shapes : ShapeMap) (node : GraphNode) :
    Except PyErr (Option LayerSpec) :=
  let src := get_input_node graph node.id
  let in_shape : Option (List Int) :=
    match src with
    | some s => if strTruthy s then shapes.find? s else none
    | none => none
  build_layer_core in_shape node

/-! ## `model_builder.py` (backend): `DynamicModel.forward` -/

/-- A `DynamicModel` instance: the graph, the recorded topological order,
and the externally-supplied tensor operations.  `T` is the (abstract)
tensor type of the torch backend; `layers` is the application of
`self.layers[node_id]`, `attnApply` the `q, k, v` self-attention call. -/
structure DynamicModel (T : Type) where
  graph : GraphSchema
  topo_order : List String
  layers : String → T → T
  attnApply : String → T → T
  tAdd : T → T → T
  tCat : List T → Int → T
  tDim : T → Nat
  tReshapeFlat : T → T
  tReshapeBack : T → T → T
  tFlatten1 : T → T

/-- One iteration of the `for node_id in self.topo_order` loop of
`DynamicModel.forward`: either an early `return` (`Sum.inl`), an updated
`outputs` dict (`Sum.inr`), or a raised exception. -/
def stepNode {T : Type} (m : DynamicModel T) (x : T)
    (outputs : List (String × T)) (node_id : String) :
    Except PyErr (T ⊕ List (String × T)) :=
  match m.graph.findNode? node_id with
  | none => .error .keyError
  | some node =>
    if node.type == "input" ∨ node.type == "text_input" then
      .ok (.inr (dictInsert outputs node_id x))
    else if node.type == "output" then
      match get_input_node m.graph node_id with
      | some src =>
        if strTruthy src then
          match lastAssoc? outputs src with
          | some t => .ok (.inl t)
          | none => .error .keyError
        else .error (.runtimeError "Output node has no input")
      | none => .error (.runtimeError "Output node has no input")
    else if node.type == "add" then do
      let srcs := get_input_nodes m.graph node_id
      let s0 ← pyIdx srcs 0
      let t0 ← match lastAssoc? outputs s0 with
        | some t => Except.ok t
        | none => Except.error PyErr.keyError
      let s1 ← pyIdx srcs 1
      let t1 ← match lastAssoc? outputs s1 with
        | some t => Except.ok t
        | none => Except.error PyErr.keyError
      .ok (.inr (dictInsert outputs node_id (m.tAdd t0 t1)))
    else if node.type == "concat" then do
      let srcs := get_input_nodes m.graph node_id
      let dim ← pyToInt (node.params.get "dim" (.vInt 1))
      let ts ← srcs.mapM (fun s =>
        match lastAssoc? outputs s with
        | some t => Except.ok t
        | none => Except.error PyErr.keyError)
      .ok (.inr (dictInsert outputs node_id (m.tCat ts dim)))
    else if node.type == "attention" then
      match get_input_node m.graph node_id with
      | none =>
        .error (.runtimeError
          ("Node " ++ node_id ++ " (attention) has no input"))
      | some src =>
        match lastAssoc? outputs src with
        | none => .error .keyError
        | some inp =>
          .ok (.inr (dictInsert outputs node_id (m.attnApply node_id inp)))
    else
      match get_input_node m.graph node_id with
      | none =>
        .error (.runtimeError
          ("Node " ++ node_id ++ " (" ++ node.type ++ ") has no input"))
      | some src =>
        match lastAssoc? outputs src with
        | none => .error .keyError
        | some inp =>
          if node.type == "linear" then
            if m.tDim inp == 3 then
              let out := m.layers node_id (m.tReshapeFlat inp)
              .ok (.inr (dictInsert outputs node_id (m.tReshapeBack inp out)))
            else
              let inp := if m.tDim inp > 2 then m.tFlatten1 inp else inp
              .ok (.inr (dictInsert outputs node_id (m.layers node_id inp)))
          else
            .ok (.inr (dictInsert outputs node_id (m.layers node_id inp)))

/-- The `for node_id in self.topo_order` loop of `DynamicModel.forward`,
starting from a given `outputs` dict and remaining order; falling off the
end of the loop raises `RuntimeError("Graph has no output node")`. -/
def forwardFrom {T : Type} (m : DynamicModel T) (x : T)
    (outputs : List (String × T)) : List String → Except PyErr T
  | [] => .error (.runtimeError "Graph has no output node")
  | node_id :: rest =>
    match stepNode m x outputs node_id with
    | .error e => .error e
    | .ok (.inl t) => .ok t
    | .ok (.inr outputs') => forwardFrom m x outputs' rest

/-- `DynamicModel.forward`. -/
def DynamicModel.forward {T : Type} (m : DynamicModel T) (x : T) :
    Except PyErr T :=
  forwardFrom m x [] m.topo_order

/-- The loop body runs through the whole order without an early return and
without raising: the final `outputs` dict if so, `none` otherwise. -/
def loopCompletes {T : Type} (m : DynamicModel T) (x : T)
    (outputs : List (String × T)) : List String → Option (List (String × T))
  | [] => some outputs
  | node_id :: rest =>
    match stepNode m x outputs node_id with
    | .ok (.inr outputs') => loopCompletes m x outputs' rest
    | _ => none

/-! ## `normalize_graph.py`: `_normalize_node_type_and_params` -/

/-- `_int_param` from `normalize_graph.py`: best-effort scalar coercion
(number, first element of a list, numeric string; anything else gives the
default; bools are explicitly excluded). -/
def intParam : PyVal → Int → Int
  | .vNone, dflt => dflt
  | .vInt n, _ => n
  | .vBool _, dflt => dflt
  | .vList (x :: _), dflt => intParam x dflt
  | .vList [], dflt => dflt
  | .vStr s, dflt =>
    match pyStrToInt? s with
    | some n => n
    | none => dflt

/-- The canonical activation tags accepted by the `"activation"` rewrite. -/
def activationTags : List String := ["relu", "gelu", "sigmoid", "tanh"]

/-- Python `raw[0] is None or raw[0] == 1` (`True == 1` holds in Python). -/
def pyIsNoneOrOne : PyVal → Bool
  | .vNone => true
  | .vInt n => n == 1
  | .vBool b => b
  | _ => false

/-- The element coercion of
`[1 if x is None else int(x) for x in raw if isinstance(x,(int,float)) or x is None]`
(Python bools are ints). -/
def inputShapeNums (raw : List PyVal) : List Int :=
  (raw.filterMap (fun v =>
    match v with
    | .vNone => some 1
    | .vInt n => some n
    | .vBool b => some (if b then 1 else 0)
    | _ => none))

/-- `[int(x) for x in shape if isinstance(x, (int, float))]`. -/
def intListOfShape (shape : List PyVal) : List Int :=
  shape.filterMap (fun v =>
    match v with
    | .vInt n => some n
    | .vBool b => some (if b then (1 : Int) else 0)
    | _ => none)

/-- The comma-separated string fallback of the input-shape coercion:
`[int(x.strip()) for x in raw.split(",") if x.strip().replace("-","").replace(".","").isdigit()]`
(this can raise `ValueError`, e.g. on `"3.5"`). -/
def parseShapeString (raw : String) : Except PyErr (List Int) :=
  (raw.splitOn ",").foldlM
    (fun acc x =>
      let y := pyStrip x
      let z := y.data.filter (fun c => c ≠ Char.ofNat 45 ∧ c ≠ Char.ofNat 46)
      if z ≠ [] ∧ z.all Char.isDigit then
        match pyStrToInt? y with
        | some n => .ok (acc ++ [n])
        | none => .error .valueError
      else .ok acc)
    []

/-- `_normalize_node_type_and_params` from `normalize_graph.py`.  The
PascalCase `type_map` maps every canonical lowercase tag to itself, so the
lookup `type_map.get(t, t)` is the identity on the trimmed lowercase tag. -/
def normalize_node_type_and_params (node : GraphNode) :
    Except PyErr (String × Params) := do
  let t := pyLower (pyStrip node.type)
  let p : Params := node.params
  let out_type := t
  -- Activation block: type "activation" + params.activation -> "relu" etc.
  let (out_type, p) : String × Params :=
    if out_type == "activation" then
      let act := pyOr (p.getN "activation")
        (pyOr (p.getN "function") (.vStr "relu"))
      let act := match act with
        | .vStr s => PyVal.vStr (pyLower (pyStrip s))
        | v => v
      let ty := match act with
        | .vStr s => if activationTags.contains s then s else "relu"
        | _ => "relu"
      (ty, ([] : Params))
    else (out_type, p)
  -- Input: input_shape or shape -> list of ints as "shape"
  let p ←
    if out_type == "input" then do
      let shape? ←
        match p.getN "shape" with
        | .vList xs => pure (some (PyVal.vList xs))
        | _ =>
          match p.getN "input_shape" with
          | .vList raw => do
            let nums := inputShapeNums raw
            if nums.length == 4 ∧ pyIsNoneOrOne (raw.headI) then
              pure (some (PyVal.vList ((nums.tail).map PyVal.vInt)))
            else
              pure (some (PyVal.vList (nums.map PyVal.vInt)))
          | .vStr s => do
            let nums ← parseShapeString s
            pure (some (PyVal.vList (nums.map PyVal.vInt)))
          | _ => pure (some defaultShapeVal)
      let p : Params :=
        match shape? with
        | some (PyVal.vList xs) =>
          if !xs.isEmpty then
            dictInsert p "shape"
              (PyVal.vList ((intListOfShape xs).map PyVal.vInt))
          else p
        | _ => p
      let p : Params :=
        match p.getN "shape" with
        | .vList xs => if xs.isEmpty then dictInsert p "shape" defaultShapeVal
            else p
        | _ => dictInsert p "shape" defaultShapeVal
      pure p
    else pure p
  -- Conv2D: kernel_size, stride, padding as scalars; "same" -> k // 2
  let p : Params :=
    if out_type == "conv2d" then
      let k := intParam (p.getN "kernel_size") 3
      let s := intParam (p.getN "stride") 1
      let pad :=
        match p.getN "padding" with
        | .vStr ps =>
          if pyLower (pyStrip ps) == "same" then
            if k > 0 then Int.fdiv k 2 else 0
          else intParam (.vStr ps) 0
        | v => intParam v 0
      dictInsert (dictInsert (dictInsert p "kernel_size" (.vInt k))
        "stride" (.vInt s)) "padding" (.vInt pad)
    else p
  -- MaxPool2D / MaxPool1D: kernel_size, stride as scalars
  let p : Params :=
    if out_type == "maxpool2d" ∨ out_type == "maxpool1d" then
      let k := intParam (p.getN "kernel_size") 2
      let s := intParam (p.getN "stride") k
      dictInsert (dictInsert p "kernel_size" (.vInt k)) "stride" (.vInt s)
    else p
  pure (out_type, p)

/-- `normalize_graph` from `normalize_graph.py`: rewrite each node's type
and params, keeping ids, edges and metadata. -/
def normalize_graph (graph : GraphSchema) : Except PyErr GraphSchema := do
  let nodes ← graph.nodes.mapM (fun n => do
    let (out_type, out_params) ← normalize_node_type_and_params n
    pure { id := n.id, type := out_type, params := out_params : GraphNode })
  pure { nodes := nodes, edges := graph.edges }

/-! ## Small computation lemmas -/

theorem ebind_ok {α β : Type} (a : α) (f : α → Except PyErr β) :
    Except.bind (Except.ok a) f = f a := rfl

theorem ebind_err {α β : Type} (e : PyErr) (f : α → Except PyErr β) :
    Except.bind (Except.error e) f = Except.error e := rfl

theorem bindOk {α β : Type} (a : α) (f : α → Except PyErr β) :
    Bind.bind (Except.ok a) f = f a := rfl

theorem bindErr {α β : Type} (e : PyErr) (f : α → Except PyErr β) :
    Bind.bind (Except.error e : Except PyErr α) f = Except.error e := rfl

theorem pyIdx_cons_zero {α : Type} (a : α) (l : List α) :
    pyIdx (a :: l) 0 = .ok a := by
  unfold pyIdx
  rw [dif_pos]
  · rfl
  · constructor
    · omega
    · simp only [List.length_cons]
      have : (0 : Int) < (l.length : Int) + 1 := by positivity
      push_cast
      omega

theorem pyIdx_cons_one {α : Type} (a b : α) (l : List α) :
    pyIdx (a :: b :: l) 1 = .ok b := by
  unfold pyIdx
  rw [dif_pos]
  · rfl
  · constructor
    · omega
    · have h : ((a :: b :: l).length : Int) = (l.length : Int) + 2 := by
        simp
        omega
      rw [if_neg (by omega)]
      omega

theorem pyFloorDiv_ok (a s : Int) (h : s ≠ 0) :
    pyFloorDiv a s = .ok (Int.fdiv a s) := by
  simp [pyFloorDiv, h]


/-! ## Dispatch lemmas: which branch `inferStep` takes for each type tag -/

theorem inferStep_input (g : GraphSchema) (i : Option (List Int))
    (m : ShapeMap) (node : GraphNode) (h : node.type = "input") :
    inferStep g i m node = inputRule i m node.id node.params := by
  obtain ⟨nid, ntype, p⟩ := node
  subst h
  rfl

theorem inferStep_output (g : GraphSchema) (i : Option (List Int))
    (m : ShapeMap) (node : GraphNode) (h : node.type = "output") :
    inferStep g i m node = outputRule g m node.id := by
  obtain ⟨nid, ntype, p⟩ := node
  subst h
  rfl

theorem inferStep_linear (g : GraphSchema) (i : Option (List Int))
    (m : ShapeMap) (node : GraphNode) (h : node.type = "linear") :
    inferStep g i m node = linearRule g m node.id node.params := by
  obtain ⟨nid, ntype, p⟩ := node
  subst h
  rfl

theorem inferStep_conv2d (g : GraphSchema) (i : Option (List Int))
    (m : ShapeMap) (node : GraphNode) (h : node.type = "conv2d") :
    inferStep g i m node = conv2dRule g m node.id node.params := by
  obtain ⟨nid, ntype, p⟩ := node
  subst h
  rfl

theorem inferStep_maxpool2d (g : GraphSchema) (i : Option (List Int))
    (m : ShapeMap) (node : GraphNode) (h : node.type = "maxpool2d") :
    inferStep g i m node = maxpool2dRule g m node.id node.params := by
  obtain ⟨nid, ntype, p⟩ := node
  subst h
  rfl

theorem inferStep_adaptiveavgpool2d (g : GraphSchema) (i : Option (List Int))
    (m : ShapeMap) (node : GraphNode) (h : node.type = "adaptiveavgpool2d") :
    inferStep g i m node = adaptiveavgpool2dRule g m node.id node.params := by
  obtain ⟨nid, ntype, p⟩ := node
  subst h
  rfl

theorem inferStep_flatten (g : GraphSchema) (i : Option (List Int))
    (m : ShapeMap) (node : GraphNode) (h : node.type = "flatten") :
    inferStep g i m node = flattenRule g m node.id := by
  obtain ⟨nid, ntype, p⟩ := node
  subst h
  rfl

theorem inferStep_elementwise (g : GraphSchema) (i : Option (List Int))
    (m : ShapeMap) (node : GraphNode)
    (h : node.type ∈ ["relu", "gelu", "sigmoid", "tanh", "dropout",
      "batchnorm", "layernorm"]) :
    inferStep g i m node = elementwiseRule g m node.id node.type := by
  obtain ⟨nid, ntype, p⟩ := node
  simp only [List.mem_cons, List.not_mem_nil, or_false] at h
  rcases h with h | h | h | h | h | h | h <;> (subst h; rfl)

theorem inferStep_add (g : GraphSchema) (i : Option (List Int))
    (m : ShapeMap) (node : GraphNode) (h : node.type = "add") :
    inferStep g i m node = addRule g m node.id := by
  obtain ⟨nid, ntype, p⟩ := node
  subst h
  rfl

theorem inferStep_concat (g : GraphSchema) (i : Option (List Int))
    (m : ShapeMap) (node : GraphNode) (h : node.type = "concat") :
    inferStep g i m node = concatRule g m node.id node.params := by
  obtain ⟨nid, ntype, p⟩ := node
  subst h
  rfl

/-- The recognized type tags of `infer_shapes`' `if/elif` chain. -/
def recognizedTypes : List String :=
  ["input", "output", "linear", "conv2d", "maxpool2d", "adaptiveavgpool2d",
    "flatten", "relu", "gelu", "sigmoid", "tanh", "dropout", "batchnorm",
    "layernorm", "add", "concat"]

theorem inferStep_default (g : GraphSchema) (i : Option (List Int))
    (m : ShapeMap) (node : GraphNode) (h : node.type ∉ recognizedTypes) :
    inferStep g i m node = defaultRule g m node.id := by
  simp only [recognizedTypes, List.mem_cons, List.not_mem_nil, or_false,
    not_or] at h
  obtain ⟨h1, h2, h3, h4, h5, h6, h7, h8, h9, h10, h11, h12, h13, h14,
    h15, h16⟩ := h
  simp [inferStep, h1, h2, h3, h4, h5, h6, h7, h8, h9, h10, h11, h12, h13,
    h14, h15, h16]

/-! ## Claim C3: conv2d shape rule -/

/-- **C3.** For every conv2d node whose single upstream shape is known (and
whose configured parameters are the integers `c_out`, `k`, `s ≠ 0`, `pad`),
the `infer_shapes` visit of the node (`inferStep`) raises a `ShapeError` if
the upstream shape is not rank-3; otherwise, for upstream `[c, h, w]`, it
assigns `[c_out, h', w']` with `h' = ⌊(h + 2·pad − k)/s⌋ + 1` (and
symmetrically for `w'`), and raises a `ShapeError` when `h'` or `w'` is
non-positive. -/
theorem conv2d_infer_rule (g : GraphSchema) (i : Option (List Int))
    (m : ShapeMap) (node : GraphNode) (src : String) (in_shape : List Int)
    (c_out k s pad : Int)
    (htype : node.type = "conv2d")
    (hsrc : get_input_node g node.id = some src)
    (hshape : m.find? src = some in_shape)
    (hco : pyToInt (node.params.get "out_channels" (.vInt 32)) = .ok c_out)
    (hk : pyToInt (node.params.get "kernel_size" (.vInt 3)) = .ok k)
    (hst : pyToInt (node.params.get "stride" (.vInt 1)) = .ok s)
    (hpad : pyToInt (node.params.get "padding" (.vInt 0)) = .ok pad)
    (hs0 : s ≠ 0) :
    (in_shape.length ≠ 3 →
      ∃ msg, inferStep g i m node = .error (.shapeError msg (some node.id))) ∧
    (∀ c h w, in_shape = [c, h, w] →
      (Int.fdiv (h + 2 * pad - k) s + 1 ≤ 0 ∨
          Int.fdiv (w + 2 * pad - k) s + 1 ≤ 0 →
        ∃ msg,
          inferStep g i m node = .error (.shapeError msg (some node.id))) ∧
      (0 < Int.fdiv (h + 2 * pad - k) s + 1 →
        0 < Int.fdiv (w + 2 * pad - k) s + 1 →
        inferStep g i m node =
          .ok (m.insert node.id
            [c_out, Int.fdiv (h + 2 * pad - k) s + 1,
              Int.fdiv (w + 2 * pad - k) s + 1]))) := by
  rw [inferStep_conv2d g i m node htype]
  constructor
  · intro hlen
    simp only [conv2dRule, hsrc, hshape]
    match in_shape, hlen with
    | [], _ => exact ⟨_, rfl⟩
    | [a], _ => exact ⟨_, rfl⟩
    | [a, b], _ => exact ⟨_, rfl⟩
    | [a, b, c], hlen => exact absurd rfl hlen
    | a :: b :: c :: d :: rest, _ => exact ⟨_, rfl⟩
  · rintro c h w rfl
    constructor
    · intro hneg
      simp only [conv2dRule, hsrc, hshape, hco, hk, hst, hpad,
        pyFloorDiv_ok _ _ hs0, bindOk]
      rw [if_pos hneg]
      exact ⟨_, rfl⟩
    · intro hh hw
      simp only [conv2dRule, hsrc, hshape, hco, hk, hst, hpad,
        pyFloorDiv_ok _ _ hs0, bindOk]
      rw [if_neg (by omega)]

/-- A small input → conv2d → output graph used to instantiate the conv2d
rule (kernel 3, stride 1, padding 1 on a `[1, 28, 28]` input). -/
def egConvNode : GraphNode :=
  ⟨"conv", "conv2d",
    [("out_channels", .vInt 16), ("kernel_size", .vInt 3),
      ("stride", .vInt 1), ("padding", .vInt 1)]⟩

def egConv : GraphSchema :=
  { nodes := [⟨"in", "input", [("shape", .vList [.vInt 1, .vInt 28, .vInt 28])]⟩,
      egConvNode, ⟨"out", "output", []⟩],
    edges := [⟨"e1", "in", "out", "conv", "in"⟩,
      ⟨"e2", "conv", "out", "out", "in"⟩] }

/-- Witness for C3: on the concrete graph `egConv` with upstream shape
`[1, 28, 28]`, the conv2d rule yields `[16, 28, 28]`. -/
theorem conv2d_infer_rule_witness :
    inferStep egConv none [("in", [1, 28, 28])] egConvNode =
      .ok (ShapeMap.insert [("in", [1, 28, 28])] "conv" [16, 28, 28]) := by
  have h := conv2d_infer_rule egConv none [("in", [1, 28, 28])] egConvNode
    "in" [1, 28, 28] 16 3 1 1 rfl rfl rfl rfl rfl rfl rfl (by decide)
  exact (h.2 1 28 28 rfl).2 (by decide) (by decide)

/-! ## Claim C4: maxpool2d shape rule -/

/-- The maxpool node of the padding counterexample: kernel 2, stride 2 and a
configured `padding` of 1, which the maxpool branch never reads. -/
def egPoolPadNode : GraphNode :=
  ⟨"pool", "maxpool2d",
    [("kernel_size", .vInt 2), ("stride", .vInt 2), ("padding", .vInt 1)]⟩

def egPoolPad : GraphSchema :=
  { nodes := [⟨"in", "input", [("shape", .vList [.vInt 1, .vInt 4, .vInt 4])]⟩,
      egPoolPadNode, ⟨"out", "output", []⟩],
    edges := [⟨"e1", "in", "out", "pool", "in"⟩,
      ⟨"e2", "pool", "out", "out", "in"⟩] }

/-- **C4, counterexample.**  On input `[1, 4, 4]` with kernel 2, stride 2,
padding 1, the claimed conv2d-style formula (with the `2·pad` term) gives
`⌊(4 + 2 − 2)/2⌋ + 1 = 3`, but `infer_shapes` produces `[1, 2, 2]`: the
maxpool branch ignores the padding parameter entirely. -/
theorem maxpool2d_padding_counterexample :
    infer_shapes egPoolPad none =
      .ok [("in", [1, 4, 4]), ("pool", [1, 2, 2]), ("out", [1, 2, 2])] ∧
    Int.fdiv (4 + 2 * 1 - 2) 2 + 1 = 3 ∧
    ¬ ((ShapeMap.find? [("in", [1, 4, 4]), ("pool", [1, 2, 2]),
          ("out", [1, 2, 2])] "pool") = some [1, 3, 3]) := by
  refine ⟨rfl, by decide, by decide⟩

/-- **C4, amended.**  For every maxpool2d node with a known rank-3 upstream
shape `[c, h, w]` and configured integer kernel `k` (default 2) and stride
`s` (default `k`, `s ≠ 0`), the `infer_shapes` visit produces
`[c, ⌊(h − k)/s⌋ + 1, ⌊(w − k)/s⌋ + 1]` — the conv2d formula family but
with **no** padding term (the configured padding is never read), the
channel count unchanged, and a `ShapeError` when a computed dimension is
non-positive or the upstream shape is not rank-3. -/
theorem maxpool2d_infer_rule (g : GraphSchema) (i : Option (List Int))
    (m : ShapeMap) (node : GraphNode) (src : String) (in_shape : List Int)
    (k s : Int)
    (htype : node.type = "maxpool2d")
    (hsrc : get_input_node g node.id = some src)
    (hshape : m.find? src = some in_shape)
    (hk : pyToInt (node.params.get "kernel_size" (.vInt 2)) = .ok k)
    (hst : pyToInt (node.params.get "stride" (.vInt k)) = .ok s)
    (hs0 : s ≠ 0) :
    (in_shape.length ≠ 3 →
      ∃ msg, inferStep g i m node = .error (.shapeError msg (some node.id))) ∧
    (∀ c h w, in_shape = [c, h, w] →
      (Int.fdiv (h - k) s + 1 ≤ 0 ∨ Int.fdiv (w - k) s + 1 ≤ 0 →
        ∃ msg,
          inferStep g i m node = .error (.shapeError msg (some node.id))) ∧
      (0 < Int.fdiv (h - k) s + 1 → 0 < Int.fdiv (w - k) s + 1 →
        inferStep g i m node =
          .ok (m.insert node.id
            [c, Int.fdiv (h - k) s + 1, Int.fdiv (w - k) s + 1]))) := by
  rw [inferStep_maxpool2d g i m node htype]
  constructor
  · intro hlen
    simp only [maxpool2dRule, hsrc, hshape]
    match in_shape, hlen with
    | [], _ => exact ⟨_, rfl⟩
    | [a], _ => exact ⟨_, rfl⟩
    | [a, b], _ => exact ⟨_, rfl⟩
    | [a, b, c], hlen => exact absurd rfl hlen
    | a :: b :: c :: d :: rest, _ => exact ⟨_, rfl⟩
  · rintro c h w rfl
    constructor
    · intro hneg
      simp only [maxpool2dRule, hsrc, hshape, hk, hst,
        pyFloorDiv_ok _ _ hs0, bindOk]
      rw [if_pos hneg]
      exact ⟨_, rfl⟩
    · intro hh hw
      simp only [maxpool2dRule, hsrc, hshape, hk, hst,
        pyFloorDiv_ok _ _ hs0, bindOk]
      rw [if_neg (by omega)]

/-- A default-parameter maxpool node (kernel 2, stride defaulting to the
kernel size). -/
def egPoolNode : GraphNode := ⟨"pool", "maxpool2d", []⟩

def egPool : GraphSchema :=
  { nodes := [⟨"in", "input", [("shape", .vList [.vInt 3, .vInt 27, .vInt 27])]⟩,
      egPoolNode, ⟨"out", "output", []⟩],
    edges := [⟨"e1", "in", "out", "pool", "in"⟩,
      ⟨"e2", "pool", "out", "out", "in"⟩] }

/-- Witness for the amended C4: `[3, 27, 27]` with default kernel 2 and
stride 2 pools to `[3, 13, 13]`. -/
theorem maxpool2d_infer_rule_witness :
    inferStep egPool none [("in", [3, 27, 27])] egPoolNode =
      .ok (ShapeMap.insert [("in", [3, 27, 27])] "pool" [3, 13, 13]) := by
  have h := maxpool2d_infer_rule egPool none [("in", [3, 27, 27])] egPoolNode
    "in" [3, 27, 27] 2 2 rfl rfl rfl rfl rfl (by decide)
  exact (h.2 3 27 27 rfl).2 (by decide) (by decide)

/-! ## Claim C5: add shape rule -/

/-- **C5.** For every add node visited by `infer_shapes`: with exactly 2
upstream sources whose shapes are known and equal, the inferred shape is
the common shape; two differing known shapes raise a `ShapeError` naming
both shapes; a source count other than 2, or an unknown upstream shape,
raises a `ShapeError`. -/
theorem add_infer_rule (g : GraphSchema) (i : Option (List Int))
    (m : ShapeMap) (node : GraphNode)
    (htype : node.type = "add") :
    ((get_input_nodes g node.id).length ≠ 2 →
      inferStep g i m node =
        .error (.shapeError "Add node requires exactly 2 inputs"
          (some node.id))) ∧
    (∀ s0 s1, get_input_nodes g node.id = [s0, s1] →
      ((m.find? s0 = none ∨ m.find? s1 = none) →
        inferStep g i m node =
          .error (.shapeError "Add node input shapes not available"
            (some node.id))) ∧
      (∀ a b, m.find? s0 = some a → m.find? s1 = some b →
        (a = b → inferStep g i m node = .ok (m.insert node.id a)) ∧
        (a ≠ b → inferStep g i m node =
          .error (.shapeError
            ("Add node shape mismatch: " ++ pyStrIntList a ++ " vs " ++
              pyStrIntList b)
            (some node.id))))) := by
  rw [inferStep_add g i m node htype]
  constructor
  · intro hlen
    simp only [addRule]
    rw [if_pos hlen]
  · intro s0 s1 hsrcs
    have hlen : ¬ ((get_input_nodes g node.id).length ≠ 2) := by
      rw [hsrcs]
      simp
    constructor
    · intro hmiss
      simp only [addRule, hsrcs]
      rw [if_neg (by simp)]
      simp only [pyIdx_cons_zero, pyIdx_cons_one, bindOk]
      rcases hmiss with hm | hm
      · rw [hm]
      · rw [hm]
        rcases h0 : m.find? s0 with _ | a
        · rfl
        · rfl
    · intro a b ha hb
      constructor
      · rintro rfl
        simp only [addRule, hsrcs]
        rw [if_neg (by simp)]
        simp only [pyIdx_cons_zero, pyIdx_cons_one, bindOk, ha, hb]
        rw [if_neg (by simp)]
      · intro hne
        simp only [addRule, hsrcs]
        rw [if_neg (by simp)]
        simp only [pyIdx_cons_zero, pyIdx_cons_one, bindOk, ha, hb]
        rw [if_pos hne]

/-- A residual-style graph: input feeds two relu branches merged by add. -/
def egAddNode : GraphNode := ⟨"sum", "add", []⟩

def egAdd : GraphSchema :=
  { nodes := [⟨"in", "input", [("shape", .vList [.vInt 16, .vInt 28, .vInt 28])]⟩,
      ⟨"a", "relu", []⟩, ⟨"b", "relu", []⟩, egAddNode, ⟨"out", "output", []⟩],
    edges := [⟨"e1", "in", "out", "a", "in"⟩, ⟨"e2", "in", "out", "b", "in"⟩,
      ⟨"e3", "a", "out", "sum", "in_a"⟩, ⟨"e4", "b", "out", "sum", "in_b"⟩,
      ⟨"e5", "sum", "out", "out", "in"⟩] }

/-- Witness for C5: adding `[16, 28, 28]` to `[16, 28, 28]` yields
`[16, 28, 28]`, and against `[8, 28, 28]` raises the mismatch error naming
both shapes. -/
theorem add_infer_rule_witness :
    inferStep egAdd none [("a", [16, 28, 28]), ("b", [16, 28, 28])]
        egAddNode =
      .ok (ShapeMap.insert [("a", [16, 28, 28]), ("b", [16, 28, 28])] "sum"
        [16, 28, 28]) ∧
    inferStep egAdd none [("a", [16, 28, 28]), ("b", [8, 28, 28])]
        egAddNode =
      .error (.shapeError
        ("Add node shape mismatch: " ++ pyStrIntList [16, 28, 28] ++
          " vs " ++ pyStrIntList [8, 28, 28])
        (some "sum")) := by
  constructor
  · exact (((add_infer_rule egAdd none
      [("a", [16, 28, 28]), ("b", [16, 28, 28])] egAddNode rfl).2 "a" "b"
      rfl).2 [16, 28, 28] [16, 28, 28] rfl rfl).1 rfl
  · exact (((add_infer_rule egAdd none
      [("a", [16, 28, 28]), ("b", [8, 28, 28])] egAddNode rfl).2 "a" "b"
      rfl).2 [16, 28, 28] [8, 28, 28] rfl rfl).2 (by decide)

/-! ## Claim C6: concat shape rule -/

theorem reduceOption_map_some {α : Type} (l : List α) :
    (l.map (fun a => some a)).reduceOption = l := by
  induction l with
  | nil => rfl
  | cons a t ih => simpa [List.reduceOption_cons_of_some] using ih

theorem any_isNone_map_some {α : Type} (l : List α) :
    ((l.map (fun a => some a)).any (fun s => s.isNone)) = false := by
  induction l with
  | nil => rfl
  | cons a t ih => simp

theorem zip_getD (l l' : List Int) (j : Nat) (h : j < (l.zip l').length) :
    (l.zip l').getD j (0, 0) = (l.getD j 0, l'.getD j 0) := by
  have h1 : j < l.length := by rw [List.length_zip] at h; omega
  have h2 : j < l'.length := by rw [List.length_zip] at h; omega
  rw [List.getD_eq_get _ _ h, List.getD_eq_get _ _ h1, List.getD_eq_get _ _ h2]
  exact List.get_zip

theorem concatZipGo_ok (nid : String) (dim : Int) (ref s : List Int) :
    ∀ (pairs : List (Int × Int)) (i : Nat),
      (∀ j, j < pairs.length → (((i : Int) + (j : Int)) = dim ∨
        (pairs.getD j (0, 0)).1 = (pairs.getD j (0, 0)).2)) →
      concatZipGo nid dim ref s i pairs = .ok () := by
  intro pairs
  induction pairs with
  | nil => intro i _; rfl
  | cons p rest ih =>
    intro i h
    obtain ⟨a, b⟩ := p
    have h0 := h 0 (by simp)
    simp only [List.getD_cons_zero, Nat.cast_zero, add_zero] at h0
    unfold concatZipGo
    rw [if_neg]
    · apply ih (i + 1)
      intro j hj
      have := h (j + 1) (by simpa using Nat.succ_lt_succ hj)
      simp only [List.getD_cons_succ] at this
      rcases this with hd | hd
      · left; push_cast at hd ⊢; omega
      · right; exact hd
    · rintro ⟨h1, h2⟩
      rcases h0 with h0 | h0
      · exact h1 h0
      · exact h2 h0

theorem concatZipGo_err (nid : String) (dim : Int) (ref s : List Int) :
    ∀ (pairs : List (Int × Int)) (i : Nat),
      (∃ j, j < pairs.length ∧ ((i : Int) + (j : Int)) ≠ dim ∧
        (pairs.getD j (0, 0)).1 ≠ (pairs.getD j (0, 0)).2) →
      ∃ msg, concatZipGo nid dim ref s i pairs =
        .error (.shapeError msg (some nid)) := by
  intro pairs
  induction pairs with
  | nil =>
    rintro i ⟨j, hj, _⟩
    simp at hj
  | cons p rest ih =>
    rintro i ⟨j, hj, hne, hab⟩
    obtain ⟨a, b⟩ := p
    unfold concatZipGo
    by_cases hc : (i : Int) ≠ dim ∧ a ≠ b
    · rw [if_pos hc]
      exact ⟨_, rfl⟩
    · rw [if_neg hc]
      apply ih (i + 1)
      cases j with
      | zero =>
        exfalso
        apply hc
        constructor
        · simpa using hne
        · simpa using hab
      | succ j' =>
        refine ⟨j', by simpa using Nat.lt_of_succ_lt_succ hj, ?_, ?_⟩
        · push_cast at hne ⊢; omega
        · simpa [List.getD_cons_succ] using hab

theorem concatCheck_ok (nid : String) (dim : Int) (ref : List Int) :
    ∀ (l : List (List Int)),
      (∀ s ∈ l, ∀ j : Nat, j < ref.length → j < s.length → (j : Int) ≠ dim →
        ref.getD j 0 = s.getD j 0) →
      concatCheck nid dim ref l = .ok () := by
  intro l
  induction l with
  | nil => intro _; rfl
  | cons s rest ih =>
    intro h
    have h1 : concatZipGo nid dim ref s 0 (ref.zip s) = .ok () := by
      apply concatZipGo_ok
      intro j hj
      by_cases hd : (j : Int) = dim
      · left; simpa using hd
      · right
        rw [zip_getD _ _ _ hj]
        have hj1 : j < ref.length := by rw [List.length_zip] at hj; omega
        have hj2 : j < s.length := by rw [List.length_zip] at hj; omega
        exact h s (List.mem_cons_self _ _) j hj1 hj2 hd
    unfold concatCheck
    rw [h1, bindOk]
    exact ih (fun s hs => h s (List.mem_cons_of_mem _ hs))

theorem concatCheck_err (nid : String) (dim : Int) (ref : List Int) :
    ∀ (l : List (List Int)),
      (∃ s ∈ l, ∃ j : Nat, j < ref.length ∧ j < s.length ∧ (j : Int) ≠ dim ∧
        ref.getD j 0 ≠ s.getD j 0) →
      ∃ msg, concatCheck nid dim ref l =
        .error (.shapeError msg (some nid)) := by
  intro l
  induction l with
  | nil =>
    rintro ⟨s, hs, _⟩
    simp at hs
  | cons s rest ih =>
    rintro ⟨t, ht, j, hj1, hj2, hjd, hjne⟩
    by_cases hmis : ∃ j : Nat, j < ref.length ∧ j < s.length ∧
        (j : Int) ≠ dim ∧ ref.getD j 0 ≠ s.getD j 0
    · obtain ⟨j', hj1', hj2', hjd', hjne'⟩ := hmis
      have herr := concatZipGo_err nid dim ref s (ref.zip s) 0
        ⟨j', by rw [List.length_zip]; omega, by simpa using hjd', by
          rw [zip_getD _ _ _ (by rw [List.length_zip]; omega)]
          exact hjne'⟩
      obtain ⟨msg, hmsg⟩ := herr
      refine ⟨msg, ?_⟩
      unfold concatCheck
      rw [hmsg, bindErr]
    · have h1 : concatZipGo nid dim ref s 0 (ref.zip s) = .ok () := by
        apply concatZipGo_ok
        intro j0 hj0
        by_cases hd : (j0 : Int) = dim
        · left; simpa using hd
        · right
          rw [zip_getD _ _ _ hj0]
          by_contra hne
          exact hmis ⟨j0, by rw [List.length_zip] at hj0; omega,
            by rw [List.length_zip] at hj0; omega, hd, hne⟩
      rcases List.mem_cons.mp ht with rfl | ht'
      · exact absurd ⟨j, hj1, hj2, hjd, hjne⟩ hmis
      · obtain ⟨msg, hmsg⟩ := ih ⟨t, ht', j, hj1, hj2, hjd, hjne⟩
        refine ⟨msg, ?_⟩
        unfold concatCheck
        rw [h1, bindOk, hmsg]

theorem pyIdx_getD {α : Type} (xs : List α) (dim : Int) (d : α)
    (h0 : 0 ≤ dim) (hlt : dim < (xs.length : Int)) :
    pyIdx xs dim = .ok (xs.getD dim.toNat d) := by
  have hj : (if dim < 0 then dim + (xs.length : Int) else dim) = dim :=
    if_neg (by omega)
  simp only [pyIdx, hj]
  rw [dif_pos ⟨h0, hlt⟩]
  rw [List.getD_eq_get _ _ (show dim.toNat < xs.length by omega)]

theorem pyIdx_oob {α : Type} (xs : List α) (dim : Int)
    (h0 : 0 ≤ dim) (hge : (xs.length : Int) ≤ dim) :
    pyIdx xs dim = .error .indexError := by
  have hj : (if dim < 0 then dim + (xs.length : Int) else dim) = dim :=
    if_neg (by omega)
  simp only [pyIdx, hj]
  rw [dif_neg (by omega)]

theorem pySet_ok {α : Type} (xs : List α) (dim : Int) (v : α)
    (h0 : 0 ≤ dim) (hlt : dim < (xs.length : Int)) :
    pySet xs dim v = .ok (xs.set dim.toNat v) := by
  have hj : (if dim < 0 then dim + (xs.length : Int) else dim) = dim :=
    if_neg (by omega)
  simp only [pySet, hj]
  rw [if_pos ⟨h0, hlt⟩]

theorem mapM_pyIdx_ok (dim : Int) (h0 : 0 ≤ dim) :
    ∀ (l : List (List Int)), (∀ s ∈ l, dim < (s.length : Int)) →
      l.mapM (fun s => pyIdx s dim) =
        .ok (l.map (fun s => s.getD dim.toNat 0)) := by
  intro l
  induction l with
  | nil => intro _; rfl
  | cons s rest ih =>
    intro h
    rw [List.mapM_cons,
      pyIdx_getD s dim 0 h0 (h s (List.mem_cons_self _ _)), bindOk,
      ih (fun t ht => h t (List.mem_cons_of_mem _ ht)), bindOk]
    rfl

theorem mapM_pyIdx_oob (dim : Int) (h0 : 0 ≤ dim) :
    ∀ (l : List (List Int)), (∃ s ∈ l, (s.length : Int) ≤ dim) →
      l.mapM (fun s => pyIdx s dim) = .error .indexError := by
  intro l
  induction l with
  | nil =>
    rintro ⟨s, hs, _⟩
    simp at hs
  | cons s rest ih =>
    rintro ⟨t, ht, hlen⟩
    by_cases hs : (s.length : Int) ≤ dim
    · rw [List.mapM_cons, pyIdx_oob s dim h0 hs, bindErr]
    · rw [List.mapM_cons, pyIdx_getD s dim 0 h0 (by omega), bindOk]
      rcases List.mem_cons.mp ht with rfl | ht'
      · omega
      · rw [ih ⟨t, ht', hlen⟩, bindErr]

/-- A graph whose concat node receives two known shapes of *different
ranks* (`[2, 3]` and `[2, 3, 4]`) with concat axis 0. -/
def egCatRankNode : GraphNode := ⟨"cat", "concat", [("dim", .vInt 0)]⟩

def egCatRank : GraphSchema :=
  { nodes := [⟨"in", "input", [("shape", .vList [.vInt 2, .vInt 3])]⟩,
      ⟨"in2", "input", [("shape", .vList [.vInt 2, .vInt 3, .vInt 4])]⟩,
      egCatRankNode, ⟨"out", "output", []⟩],
    edges := [⟨"e1", "in", "out", "cat", "in_a"⟩,
      ⟨"e2", "in2", "out", "cat", "in_b"⟩,
      ⟨"e3", "cat", "out", "out", "in"⟩] }

/-- **C6, counterexample.**  The claim says input shapes of different ranks
raise a `ShapeError`; but on `[2, 3]` and `[2, 3, 4]` with axis 0 the
validation loop (`zip`-truncated) passes and `infer_shapes` *succeeds*
with `[4, 3]`.  An out-of-range concat axis raises an uncaught
`IndexError`, not a `ShapeError`, as the second conjunct shows (axis 5 on
the same graph). -/
theorem concat_rank_mismatch_counterexample :
    infer_shapes egCatRank none =
      .ok [("in", [2, 3]), ("in2", [2, 3, 4]), ("cat", [4, 3]),
        ("out", [4, 3])] ∧
    inferStep egCatRank none [("in", [2, 3]), ("in2", [2, 3, 4])]
        ⟨"cat", "concat", [("dim", .vInt 5)]⟩ =
      .error .indexError := by
  exact ⟨rfl, rfl⟩

/-- **C6, amended.**  For every concat node with at least 2 known upstream
shapes and integer concat axis `dim ≥ 0`: if all input shapes agree with
the first on every *common* axis other than `dim` (the comparison is
truncated to the shorter rank — input shapes of different ranks are *not*
themselves rejected), and `dim` is within every input's rank, the output
is the first shape with axis `dim` replaced by the sum of all inputs'
values on that axis; a disagreement on a common non-`dim` axis raises a
`ShapeError` naming the offending axis and both shapes; and an axis
outside some input's rank raises an uncaught `IndexError` (not a
`ShapeError`). -/
theorem concat_infer_rule (g : GraphSchema) (i : Option (List Int))
    (m : ShapeMap) (node : GraphNode) (shs : List (List Int)) (dim : Int)
    (htype : node.type = "concat")
    (hdim : pyToInt (node.params.get "dim" (.vInt 0)) = .ok dim)
    (h0 : 0 ≤ dim) :
    ((get_input_nodes g node.id).length < 2 →
      inferStep g i m node =
        .error (.shapeError "Concat node requires at least 2 inputs"
          (some node.id))) ∧
    (2 ≤ (get_input_nodes g node.id).length →
      (get_input_nodes g node.id).map (fun s => m.find? s) =
        shs.map (fun a => some a) →
      ∀ ref rest, shs = ref :: rest →
      ((∀ s ∈ rest, ∀ j : Nat, j < ref.length → j < s.length →
          (j : Int) ≠ dim → ref.getD j 0 = s.getD j 0) →
        ((∀ s ∈ shs, dim < (s.length : Int)) →
          inferStep g i m node = .ok (m.insert node.id
            (ref.set dim.toNat
              (shs.map (fun s => s.getD dim.toNat 0)).sum))) ∧
        ((∃ s ∈ shs, (s.length : Int) ≤ dim) →
          inferStep g i m node = .error .indexError)) ∧
      ((∃ s ∈ rest, ∃ j : Nat, j < ref.length ∧ j < s.length ∧
          (j : Int) ≠ dim ∧ ref.getD j 0 ≠ s.getD j 0) →
        ∃ msg,
          inferStep g i m node = .error (.shapeError msg (some node.id)))) := by
  rw [inferStep_concat g i m node htype]
  constructor
  · intro hlt
    simp only [concatRule]
    rw [if_pos hlt]
  · intro hge hmap ref rest hshs
    subst hshs
    have hnotlt : ¬ ((get_input_nodes g node.id).length < 2) := by omega
    have hred : ((get_input_nodes g node.id).map
        (fun s => m.find? s)).reduceOption = ref :: rest := by
      rw [hmap]; exact reduceOption_map_some _
    have hany : (((get_input_nodes g node.id).map
        (fun s => m.find? s)).any (fun s => s.isNone)) = false := by
      rw [hmap]; exact any_isNone_map_some _
    constructor
    · intro hagree
      constructor
      · intro hlen
        simp only [concatRule]
        rw [if_neg hnotlt, if_neg (by rw [hany]; exact Bool.false_ne_true),
          hred, hdim, bindOk, pyIdx_cons_zero, bindOk,
          concatCheck_ok node.id dim ref _ (by
            intro s hs
            exact hagree s (by simpa using hs)), bindOk,
          mapM_pyIdx_ok dim h0 (ref :: rest) hlen, bindOk,
          pySet_ok ref dim _ h0
            (hlen ref (List.mem_cons_self _ _)), bindOk]
      · intro hoob
        simp only [concatRule]
        rw [if_neg hnotlt, if_neg (by rw [hany]; exact Bool.false_ne_true),
          hred, hdim, bindOk, pyIdx_cons_zero, bindOk,
          concatCheck_ok node.id dim ref _ (by
            intro s hs
            exact hagree s (by simpa using hs)), bindOk,
          mapM_pyIdx_oob dim h0 (ref :: rest) hoob, bindErr]
    · intro hmis
      obtain ⟨msg, hmsg⟩ := concatCheck_err node.id dim ref rest hmis
      refine ⟨msg, ?_⟩
      simp only [concatRule]
      rw [if_neg hnotlt, if_neg (by rw [hany]; exact Bool.false_ne_true),
        hred, hdim, bindOk, pyIdx_cons_zero, bindOk]
      have : (ref :: rest).tail = rest := rfl
      rw [this, hmsg, bindErr]

/-- Witness for the amended C6: concatenating `[2, 5]` and `[3, 5]` on axis
0 yields `[5, 5]`. -/
theorem concat_infer_rule_witness :
    inferStep egCatRank none [("in", [2, 5]), ("in2", [3, 5])]
        egCatRankNode =
      .ok (ShapeMap.insert [("in", [2, 5]), ("in2", [3, 5])] "cat"
        [5, 5]) := by
  have h := concat_infer_rule egCatRank none
    [("in", [2, 5]), ("in2", [3, 5])] egCatRankNode [[2, 5], [3, 5]] 0
    rfl rfl (by decide)
  have h2 := ((h.2 (by decide) rfl [2, 5] [[3, 5]] rfl).1 (by
    intro s hs j hj1 hj2 hjd
    simp only [List.mem_singleton] at hs
    subst hs
    rcases j with _ | j
    · exact absurd rfl (by exact_mod_cast hjd)
    rcases j with _ | j
    · rfl
    · simp only [List.length_cons, List.length_nil] at hj1
      omega)).1 (by
      intro s hs
      rcases List.mem_cons.mp hs with rfl | hs'
      · decide
      · simp only [List.mem_singleton] at hs'
        subst hs'
        decide)
  exact h2

/-! ## Claim C7: missing-upstream-shape behaviour -/

theorem linearRule_missing (g : GraphSchema) (m : ShapeMap) (nid : String)
    (p : Params)
    (hmiss : get_input_node g nid = none ∨
      (∃ src, get_input_node g nid = some src ∧ m.find? src = none)) :
    ∃ msg, linearRule g m nid p = .error (.shapeError msg (some nid)) := by
  rcases hmiss with h | ⟨src, h1, h2⟩
  · simp only [linearRule, h]
    exact ⟨_, rfl⟩
  · simp only [linearRule, h1, h2]
    exact ⟨_, rfl⟩

theorem conv2dRule_missing (g : GraphSchema) (m : ShapeMap) (nid : String)
    (p : Params)
    (hmiss : get_input_node g nid = none ∨
      (∃ src, get_input_node g nid = some src ∧ m.find? src = none)) :
    ∃ msg, conv2dRule g m nid p = .error (.shapeError msg (some nid)) := by
  rcases hmiss with h | ⟨src, h1, h2⟩
  · simp only [conv2dRule, h]
    exact ⟨_, rfl⟩
  · simp only [conv2dRule, h1, h2]
    exact ⟨_, rfl⟩

theorem maxpool2dRule_missing (g : GraphSchema) (m : ShapeMap) (nid : String)
    (p : Params)
    (hmiss : get_input_node g nid = none ∨
      (∃ src, get_input_node g nid = some src ∧ m.find? src = none)) :
    ∃ msg, maxpool2dRule g m nid p = .error (.shapeError msg (some nid)) := by
  rcases hmiss with h | ⟨src, h1, h2⟩
  · simp only [maxpool2dRule, h]
    exact ⟨_, rfl⟩
  · simp only [maxpool2dRule, h1, h2]
    exact ⟨_, rfl⟩

theorem adaptiveavgpool2dRule_missing (g : GraphSchema) (m : ShapeMap)
    (nid : String) (p : Params)
    (hmiss : get_input_node g nid = none ∨
      (∃ src, get_input_node g nid = some src ∧ m.find? src = none)) :
    ∃ msg, adaptiveavgpool2dRule g m nid p =
      .error (.shapeError msg (some nid)) := by
  rcases hmiss with h | ⟨src, h1, h2⟩
  · simp only [adaptiveavgpool2dRule, h]
    exact ⟨_, rfl⟩
  · simp only [adaptiveavgpool2dRule, h1, h2]
    exact ⟨_, rfl⟩

theorem flattenRule_missing (g : GraphSchema) (m : ShapeMap) (nid : String)
    (hmiss : get_input_node g nid = none ∨
      (∃ src, get_input_node g nid = some src ∧ m.find? src = none)) :
    ∃ msg, flattenRule g m nid = .error (.shapeError msg (some nid)) := by
  rcases hmiss with h | ⟨src, h1, h2⟩
  · simp only [flattenRule, h]
    exact ⟨_, rfl⟩
  · simp only [flattenRule, h1, h2]
    exact ⟨_, rfl⟩

theorem elementwiseRule_missing (g : GraphSchema) (m : ShapeMap)
    (nid ty : String)
    (hmiss : get_input_node g nid = none ∨
      (∃ src, get_input_node g nid = some src ∧ m.find? src = none)) :
    ∃ msg, elementwiseRule g m nid ty =
      .error (.shapeError msg (some nid)) := by
  rcases hmiss with h | ⟨src, h1, h2⟩
  · simp only [elementwiseRule, h]
    exact ⟨_, rfl⟩
  · simp only [elementwiseRule, h1, h2]
    exact ⟨_, rfl⟩

/-- A graph consisting only of an `output` node with no incoming edge. -/
def egOutputOnly : GraphSchema :=
  { nodes := [⟨"out", "output", []⟩], edges := [] }

/-- **C7, counterexample.**  The claim says every non-source type *including
output* raises a `ShapeError` when its upstream shape is unavailable; but
`infer_shapes` on a graph whose sole node is an `output` with no incoming
edge *succeeds* with an empty shape dict — the node is silently skipped. -/
theorem output_missing_input_counterexample :
    infer_shapes egOutputOnly none = .ok ShapeMap.empty := by
  rfl

/-- **C7, amended.**  When `infer_shapes` visits a node whose upstream shape
is unavailable (no incoming edge, or the source's shape was never
computed): every recognized *required-input* type — linear, conv2d,
maxpool2d, adaptiveavgpool2d, flatten, relu, gelu, sigmoid, tanh, dropout,
batchnorm, layernorm, and add/concat for their per-source shapes — raises
a `ShapeError` identifying the node; but an `output` node (and any
unrecognized type) is *silently skipped*, leaving the shape dict
unchanged, contrary to the claim's "including output". -/
theorem missing_upstream_rule (g : GraphSchema) (i : Option (List Int))
    (m : ShapeMap) (node : GraphNode) :
    (node.type ∈ ["linear", "conv2d", "maxpool2d", "adaptiveavgpool2d",
        "flatten", "relu", "gelu", "sigmoid", "tanh", "dropout",
        "batchnorm", "layernorm"] →
      (get_input_node g node.id = none ∨
        (∃ src, get_input_node g node.id = some src ∧ m.find? src = none)) →
      ∃ msg, inferStep g i m node = .error (.shapeError msg (some node.id))) ∧
    (node.type = "add" →
      ∀ s0 s1, get_input_nodes g node.id = [s0, s1] →
      (m.find? s0 = none ∨ m.find? s1 = none) →
      ∃ msg, inferStep g i m node = .error (.shapeError msg (some node.id))) ∧
    (node.type = "concat" →
      (∃ s ∈ get_input_nodes g node.id, m.find? s = none) →
      ∃ msg, inferStep g i m node = .error (.shapeError msg (some node.id))) ∧
    (node.type = "output" →
      (get_input_node g node.id = none ∨
        (∃ src, get_input_node g node.id = some src ∧ strTruthy src ∧
          m.find? src = none)) →
      inferStep g i m node = .ok m) ∧
    (node.type ∉ recognizedTypes →
      (get_input_node g node.id = none ∨
        (∃ src, get_input_node g node.id = some src ∧ strTruthy src ∧
          m.find? src = none)) →
      inferStep g i m node = .ok m) := by
  refine ⟨?_, ?_, ?_, ?_, ?_⟩
  · intro htype hmiss
    simp only [List.mem_cons, List.not_mem_nil, or_false] at htype
    rcases htype with h | h | h | h | h | h | h | h | h | h | h | h
    · rw [inferStep_linear g i m node h]
      exact linearRule_missing g m node.id node.params hmiss
    · rw [inferStep_conv2d g i m node h]
      exact conv2dRule_missing g m node.id node.params hmiss
    · rw [inferStep_maxpool2d g i m node h]
      exact maxpool2dRule_missing g m node.id node.params hmiss
    · rw [inferStep_adaptiveavgpool2d g i m node h]
      exact adaptiveavgpool2dRule_missing g m node.id node.params hmiss
    · rw [inferStep_flatten g i m node h]
      exact flattenRule_missing g m node.id hmiss
    all_goals (
      rw [inferStep_elementwise g i m node (by simp [h])]
      exact elementwiseRule_missing g m node.id node.type hmiss)
  · intro htype s0 s1 hsrcs hmiss
    rw [inferStep_add g i m node htype]
    simp only [addRule, hsrcs]
    rw [if_neg (by simp)]
    simp only [pyIdx_cons_zero, pyIdx_cons_one, bindOk]
    rcases hmiss with hm | hm
    · rw [hm]
      exact ⟨_, rfl⟩
    · rw [hm]
      rcases m.find? s0 with _ | a
      · exact ⟨_, rfl⟩
      · exact ⟨_, rfl⟩
  · intro htype hmiss
    rw [inferStep_concat g i m node htype]
    simp only [concatRule]
    by_cases hlt : (get_input_nodes g node.id).length < 2
    · rw [if_pos hlt]
      exact ⟨_, rfl⟩
    · rw [if_neg hlt]
      obtain ⟨s, hs, hnone⟩ := hmiss
      rw [if_pos]
      · exact ⟨_, rfl⟩
      · simp only [List.any_eq_true, List.mem_map]
        exact ⟨m.find? s, ⟨s, hs, rfl⟩, by rw [hnone]; rfl⟩
  · intro htype hmiss
    rw [inferStep_output g i m node htype]
    rcases hmiss with h | ⟨src, h1, h2, h3⟩
    · simp only [outputRule, h]
    · simp only [outputRule, h1, h2, h3, if_pos]
  · intro htype hmiss
    rw [inferStep_default g i m node htype]
    rcases hmiss with h | ⟨src, h1, h2, h3⟩
    · simp only [defaultRule, h]
    · simp only [defaultRule, h1, h2, h3, if_pos]

/-- Witness for the amended C7: a flatten node whose upstream shape was
never computed raises a `ShapeError`, while the `output` node of
`egOutputOnly` is silently skipped. -/
theorem missing_upstream_rule_witness :
    (∃ msg, inferStep egConv none [] ⟨"flat", "flatten", []⟩ =
      .error (.shapeError msg (some "flat"))) ∧
    inferStep egOutputOnly none [] ⟨"out", "output", []⟩ = .ok [] := by
  constructor
  · exact (missing_upstream_rule egConv none [] ⟨"flat", "flatten", []⟩).1
      (by decide) (Or.inl rfl)
  · exact (missing_upstream_rule egOutputOnly none []
      ⟨"out", "output", []⟩).2.2.2.1 rfl (Or.inl rfl)

/-! ## Claim C9: activation-tag normalization -/

/-- The type tag the activation rewrite produces: the (trimmed, lowercased)
`params.activation`-or-`params.function` string when it is one of the four
canonical activations, `"relu"` otherwise. -/
def activationResult (p : Params) : String :=
  match pyOr (p.getN "activation") (pyOr (p.getN "function") (.vStr "relu"))
    with
  | .vStr s =>
    if activationTags.contains (pyLower (pyStrip s)) then pyLower (pyStrip s)
    else "relu"
  | _ => "relu"

theorem activationResult_mem (p : Params) :
    activationResult p ∈ activationTags := by
  unfold activationResult
  rcases pyOr (p.getN "activation")
      (pyOr (p.getN "function") (.vStr "relu")) with _ | n | b | s | xs
  · simp [activationTags]
  · simp [activationTags]
  · simp [activationTags]
  · by_cases hc : activationTags.contains (pyLower (pyStrip s))
    · simp only [if_pos hc]
      exact List.mem_of_elem_eq_true hc
    · simp only [if_neg hc]
      simp [activationTags]
  · simp [activationTags]

theorem normalize_activation (nid ntype : String) (p : Params)
    (htype : pyLower (pyStrip ntype) = "activation") :
    normalize_node_type_and_params ⟨nid, ntype, p⟩ =
      .ok (activationResult p, ([] : Params)) := by
  simp only [normalize_node_type_and_params, htype, beq_self_eq_true,
    if_true, activationResult]
  rcases hval : pyOr (Params.getN p "activation")
      (pyOr (Params.getN p "function") (.vStr "relu")) with _ | n | b | s | xs
  · rfl
  · rfl
  · rfl
  · dsimp only
    by_cases hc : activationTags.contains (pyLower (pyStrip s))
    · have hmem : pyLower (pyStrip s) ∈ activationTags :=
        List.mem_of_elem_eq_true hc
      simp only [activationTags, List.mem_cons, List.not_mem_nil, or_false]
        at hmem
      rcases hmem with h | h | h | h <;> rw [h] <;> rfl
    · rw [if_neg hc]
      rfl
  · rfl

theorem mapM_normalize_ids :
    ∀ (l : List GraphNode) (res : List GraphNode),
      l.mapM (fun n => do
        let (out_type, out_params) ← normalize_node_type_and_params n
        pure ({ id := n.id, type := out_type, params := out_params } :
          GraphNode)) = .ok res →
      res.map (·.id) = l.map (·.id) := by
  intro l
  induction l with
  | nil =>
    intro res h
    rw [List.mapM_nil] at h
    cases h
    rfl
  | cons n t ih =>
    intro res h
    rw [List.mapM_cons] at h
    rcases hn : normalize_node_type_and_params n with e | tq
    · rw [hn] at h
      simp only [bindErr] at h
      cases h
    · obtain ⟨ty, q⟩ := tq
      rw [hn] at h
      simp only [bindOk] at h
      rcases ht : t.mapM (fun n => do
          let (out_type, out_params) ← normalize_node_type_and_params n
          pure ({ id := n.id, type := out_type, params := out_params } :
            GraphNode)) with e | tl
      · rw [ht] at h
        simp only [bindErr] at h
        cases h
      · rw [ht] at h
        simp only [bindOk] at h
        cases h
        simp only [List.map_cons]
        rw [ih tl ht]

theorem normalize_graph_ids (g g' : GraphSchema)
    (h : normalize_graph g = .ok g') :
    g'.nodes.map (·.id) = g.nodes.map (·.id) := by
  unfold normalize_graph at h
  rcases hm : g.nodes.mapM (fun n => do
      let (out_type, out_params) ← normalize_node_type_and_params n
      pure ({ id := n.id, type := out_type, params := out_params } :
        GraphNode)) with e | nodes
  · rw [hm] at h
    simp only [bindErr] at h
    cases h
  · rw [hm] at h
    simp only [bindOk] at h
    cases h
    exact mapM_normalize_ids g.nodes nodes hm

/-- **C9.** For every node whose type, trimmed and lowercased, is
`"activation"`, `_normalize_node_type_and_params` rewrites the type to the
value of `params.activation` (or, falling through Python `or`-truthiness,
`params.function`) when that string, trimmed and lowercased, is one of
relu / gelu / sigmoid / tanh; rewrites it to `"relu"` for any other or
missing value; in both cases replaces the params with an empty record; and
`normalize_graph` leaves every node id unchanged. -/
theorem normalize_activation_rule (node : GraphNode)
    (htype : pyLower (pyStrip node.type) = "activation") :
    (∀ s, pyOr (node.params.getN "activation")
        (pyOr (node.params.getN "function") (.vStr "relu")) = .vStr s →
      ((pyLower (pyStrip s)) ∈ activationTags →
        normalize_node_type_and_params node =
          .ok (pyLower (pyStrip s), ([] : Params))) ∧
      ((pyLower (pyStrip s)) ∉ activationTags →
        normalize_node_type_and_params node =
          .ok ("relu", ([] : Params)))) ∧
    ((∀ s, pyOr (node.params.getN "activation")
        (pyOr (node.params.getN "function") (.vStr "relu")) ≠ .vStr s) →
      normalize_node_type_and_params node = .ok ("relu", ([] : Params))) ∧
    (∀ (g g' : GraphSchema), normalize_graph g = .ok g' →
      g'.nodes.map (·.id) = g.nodes.map (·.id)) := by
  obtain ⟨nid, ntype, p⟩ := node
  simp only at htype
  refine ⟨?_, ?_, fun g g' h => normalize_graph_ids g g' h⟩
  · intro s hs
    constructor
    · intro hmem
      rw [normalize_activation nid ntype p htype]
      unfold activationResult
      rw [hs]
      dsimp only
      rw [if_pos (List.elem_eq_true_of_mem hmem)]
    · intro hnmem
      rw [normalize_activation nid ntype p htype]
      unfold activationResult
      rw [hs]
      dsimp only
      rw [if_neg (fun hc => hnmem (List.mem_of_elem_eq_true hc))]
  · intro hne
    rw [normalize_activation nid ntype p htype]
    unfold activationResult
    rcases hval : pyOr (Params.getN p "activation")
        (pyOr (Params.getN p "function") (.vStr "relu"))
      with _ | n | b | s | xs
    · rfl
    · rfl
    · rfl
    · exact absurd hval (hne s)
    · rfl

/-- Witness for C9: an `" Activation "` node with `params.activation` set to
`" GeLU "` normalizes to a `gelu` node with empty params; one with an
unrecognized `"swish"` activation normalizes to `relu`. -/
theorem normalize_activation_rule_witness :
    normalize_node_type_and_params
        ⟨"a", "  Activation ", [("activation", .vStr " GeLU ")]⟩ =
      .ok ("gelu", ([] : Params)) ∧
    normalize_node_type_and_params
        ⟨"b", "activation", [("activation", .vStr "swish")]⟩ =
      .ok ("relu", ([] : Params)) := by
  constructor
  · exact ((normalize_activation_rule
      ⟨"a", "  Activation ", [("activation", .vStr " GeLU ")]⟩ rfl).1
      " GeLU " rfl).1 (by decide)
  · exact ((normalize_activation_rule
      ⟨"b", "activation", [("activation", .vStr "swish")]⟩ rfl).1
      "swish" rfl).2 (by decide)

/-! ## Claim C10: single-input nodes use only the first matching edge -/

/-- A graph whose relu node `b` has *two* incoming edges: first from `in`
(edge `e2`), then from `a` (edge `e3`). -/
def egMultiB : GraphNode := ⟨"b", "relu", []⟩

def egMulti : GraphSchema :=
  { nodes := [⟨"in", "input", [("shape", .vList [.vInt 2])]⟩,
      ⟨"a", "relu", []⟩, egMultiB, ⟨"out", "output", []⟩],
    edges := [⟨"e1", "in", "out", "a", "in"⟩, ⟨"e2", "in", "out", "b", "in"⟩,
      ⟨"e3", "a", "out", "b", "in"⟩, ⟨"e4", "b", "out", "out", "in"⟩] }

/-- `egMulti` with `b`'s second incoming edge coming from a different node
`c` instead of `a`; the first incoming edge (from `in`) is unchanged. -/
def egMulti2 : GraphSchema :=
  { nodes := [⟨"in", "input", [("shape", .vList [.vInt 2])]⟩,
      ⟨"a", "relu", []⟩, ⟨"c", "sigmoid", []⟩, egMultiB,
      ⟨"out", "output", []⟩],
    edges := [⟨"e1", "in", "out", "a", "in"⟩, ⟨"e2", "in", "out", "b", "in"⟩,
      ⟨"e3", "c", "out", "b", "in"⟩, ⟨"e4", "b", "out", "out", "in"⟩,
      ⟨"e5", "in", "out", "c", "in"⟩] }

/-- **C10.**  (1) `get_input_node` returns the source of the *first* edge in
edge-list order whose target is the node; (2) for every node of a
single-input type (anything other than `input`, `add`, `concat` — linear,
conv2d, relu, output, every unary transform and every unrecognized tag),
the `infer_shapes` visit depends on the graph only through that first
edge; (3) layer construction (`_build_layer`) likewise consults only that
first edge's source shape; and (4) validation accepts a relu node with two
incoming edges (its arity rule only requires ≥ 1), whereupon the second
edge is silently ignored: in `egMulti`, `b`'s upstream is `"in"` (edge
`e2`), not `"a"` (edge `e3`). -/
theorem first_edge_selection_rule :
    (∀ (g : GraphSchema) (nid : String),
      get_input_node g nid =
        ((g.edges.filter (fun e => e.target == nid)).head?).map (·.source)) ∧
    (∀ (g g' : GraphSchema) (i : Option (List Int)) (m : ShapeMap)
        (node : GraphNode),
      node.type ≠ "input" → node.type ≠ "add" → node.type ≠ "concat" →
      get_input_node g node.id = get_input_node g' node.id →
      inferStep g i m node = inferStep g' i m node) ∧
    (∀ (g g' : GraphSchema) (shapes : ShapeMap) (node : GraphNode),
      get_input_node g node.id = get_input_node g' node.id →
      build_layer g shapes node = build_layer g' shapes node) ∧
    (validate_graph egMulti = .ok () ∧
      get_input_node egMulti "b" = some "in" ∧
      infer_shapes egMulti none =
        .ok [("in", [2]), ("a", [2]), ("b", [2]), ("out", [2])]) := by
  refine ⟨?_, ?_, ?_, rfl, rfl, rfl⟩
  · intro g nid
    unfold get_input_node get_input_nodes
    rw [List.head?_map]
  · intro g g' i m node h1 h2 h3 hsame
    by_cases hrec : node.type ∈ recognizedTypes
    · simp only [recognizedTypes, List.mem_cons, List.not_mem_nil, or_false]
        at hrec
      rcases hrec with h | h | h | h | h | h | h | h | h | h | h | h | h
        | h | h | h
      · exact absurd h h1
      · rw [inferStep_output g i m node h, inferStep_output g' i m node h]
        unfold outputRule
        rw [hsame]
      · rw [inferStep_linear g i m node h, inferStep_linear g' i m node h]
        unfold linearRule
        rw [hsame]
      · rw [inferStep_conv2d g i m node h, inferStep_conv2d g' i m node h]
        unfold conv2dRule
        rw [hsame]
      · rw [inferStep_maxpool2d g i m node h,
          inferStep_maxpool2d g' i m node h]
        unfold maxpool2dRule
        rw [hsame]
      · rw [inferStep_adaptiveavgpool2d g i m node h,
          inferStep_adaptiveavgpool2d g' i m node h]
        unfold adaptiveavgpool2dRule
        rw [hsame]
      · rw [inferStep_flatten g i m node h, inferStep_flatten g' i m node h]
        unfold flattenRule
        rw [hsame]
      all_goals
        first
        | (exact absurd h h2)
        | (exact absurd h h3)
        | (rw [inferStep_elementwise g i m node (by simp [h]),
            inferStep_elementwise g' i m node (by simp [h])]
           unfold elementwiseRule
           rw [hsame])
    · rw [inferStep_default g i m node hrec, inferStep_default g' i m node
        hrec]
      unfold defaultRule
      rw [hsame]
  · intro g g' shapes node hsame
    unfold build_layer
    rw [hsame]

/-- Witness for C10: with the second incoming edge of `b` redirected from
`a` to `c` (first edge unchanged), both shape inference and layer
construction at `b` are unchanged. -/
theorem first_edge_selection_rule_witness :
    inferStep egMulti none [("in", [2]), ("a", [2])] egMultiB =
      inferStep egMulti2 none [("in", [2]), ("a", [2])] egMultiB ∧
    build_layer egMulti [("in", [2]), ("a", [2])] egMultiB =
      build_layer egMulti2 [("in", [2]), ("a", [2])] egMultiB := by
  constructor
  · exact first_edge_selection_rule.2.1 egMulti egMulti2 none
      [("in", [2]), ("a", [2])] egMultiB (by decide) (by decide) (by decide)
      rfl
  · exact first_edge_selection_rule.2.2.1 egMulti egMulti2
      [("in", [2]), ("a", [2])] egMultiB rfl

/-! ## Claim C8: forward early-return at the output node -/

theorem stepNode_output {T : Type} (m : DynamicModel T) (x : T)
    (outputs : List (String × T)) (node_id : String) (node : GraphNode)
    (hfind : m.graph.findNode? node_id = some node)
    (htype : node.type = "output") :
    stepNode m x outputs node_id =
      (match get_input_node m.graph node_id with
       | some src =>
         if strTruthy src then
           match lastAssoc? outputs src with
           | some t => .ok (.inl t)
           | none => .error .keyError
         else .error (.runtimeError "Output node has no input")
       | none => .error (.runtimeError "Output node has no input")) := by
  obtain ⟨nid, nty, np⟩ := node
  simp only at htype
  subst htype
  unfold stepNode
  rw [hfind]
  rfl

/-- **C8.** During `DynamicModel.forward`: (1) when the traversal reaches an
`output` node the loop body never continues to the next iteration, and
(2) the result of the whole traversal from that point is independent of
every node that occurs later in the topological order — so no
topologically-later node is ever evaluated; (3) when the output node's
single upstream tensor is available it is returned immediately; and
(4) if the loop body runs through the entire order without an early
return, a `RuntimeError` ("Graph has no output node") is raised — a fatal
internal signal distinct from validation errors. -/
theorem forward_output_rule {T : Type} (m : DynamicModel T) (x : T)
    (outputs : List (String × T)) (node_id : String) (node : GraphNode) :
    (m.graph.findNode? node_id = some node → node.type = "output" →
      ∀ o', stepNode m x outputs node_id ≠ .ok (.inr o')) ∧
    (m.graph.findNode? node_id = some node → node.type = "output" →
      ∀ rest, forwardFrom m x outputs (node_id :: rest) =
        forwardFrom m x outputs [node_id]) ∧
    (m.graph.findNode? node_id = some node → node.type = "output" →
      ∀ src t, get_input_node m.graph node_id = some src → strTruthy src →
        lastAssoc? outputs src = some t →
        ∀ rest, forwardFrom m x outputs (node_id :: rest) = .ok t) ∧
    (∀ (order : List String) (outs : List (String × T)) (final : List (String × T)),
      loopCompletes m x outs order = some final →
      forwardFrom m x outs order =
        .error (.runtimeError "Graph has no output node")) := by
  have hstep : ∀ (outs : List (String × T)),
      m.graph.findNode? node_id = some node → node.type = "output" →
      ∀ o', stepNode m x outs node_id ≠ .ok (.inr o') := by
    intro outs hfind htype o'
    rw [stepNode_output m x outs node_id node hfind htype]
    rcases get_input_node m.graph node_id with _ | src
    · intro h
      cases h
    · dsimp only
      by_cases hs : strTruthy src
      · rw [if_pos hs]
        rcases lastAssoc? outs src with _ | t
        · intro h
          cases h
        · intro h
          cases h
      · rw [if_neg hs]
        intro h
        cases h
  refine ⟨hstep outputs, ?_, ?_, ?_⟩
  · intro hfind htype rest
    unfold forwardFrom
    rcases hres : stepNode m x outputs node_id with e | r
    · rfl
    · rcases r with t | o'
      · rfl
      · exact absurd hres (hstep outputs hfind htype o')
  · intro hfind htype src t hsrc hst ht rest
    unfold forwardFrom
    rw [stepNode_output m x outputs node_id node hfind htype, hsrc]
    dsimp only
    rw [if_pos hst, ht]
  · intro order
    induction order with
    | nil =>
      intro outs final h
      rfl
    | cons nid rest ih =>
      intro outs final h
      unfold loopCompletes at h
      unfold forwardFrom
      rcases hres : stepNode m x outs nid with e | r
      · rw [hres] at h
        cases h
      · rcases r with t | o'
        · rw [hres] at h
          cases h
        · rw [hres] at h
          exact ih o' final h

/-- A two-node model over `T = Nat` used to instantiate the forward rule. -/
def egFwdGraph : GraphSchema :=
  { nodes := [⟨"in", "input", []⟩, ⟨"out", "output", []⟩],
    edges := [⟨"e1", "in", "out", "out", "in"⟩] }

def egFwdModel : DynamicModel Nat :=
  { graph := egFwdGraph
    topo_order := ["in", "out"]
    layers := fun _ t => t
    attnApply := fun _ t => t
    tAdd := fun a b => a + b
    tCat := fun ts _ => ts.foldl (fun a b => a + b) 0
    tDim := fun _ => 1
    tReshapeFlat := fun t => t
    tReshapeBack := fun _ t => t
    tFlatten1 := fun t => t }

/-- Witness for C8: reaching the output node returns the upstream tensor at
once, ignoring any nodes recorded after it in the order; and an order with
no output node that completes raises the no-output `RuntimeError`. -/
theorem forward_output_rule_witness :
    (∀ o', stepNode egFwdModel 7 [("in", 7)] "out" ≠
      .ok (.inr o')) ∧
    forwardFrom egFwdModel 7 [("in", 7)] ("out" :: ["ghost"]) =
      .ok 7 ∧
    forwardFrom egFwdModel 7 [] ["in"] =
      .error (.runtimeError "Graph has no output node") := by
  refine ⟨?_, ?_, ?_⟩
  · exact (forward_output_rule egFwdModel 7 [("in", 7)] "out"
      ⟨"out", "output", []⟩).1 rfl rfl
  · exact (forward_output_rule egFwdModel 7 [("in", 7)] "out"
      ⟨"out", "output", []⟩).2.2.1 rfl rfl "in" 7 rfl rfl rfl ["ghost"]
  · exact (forward_output_rule egFwdModel 7 [] "x"
      ⟨"x", "relu", []⟩).2.2.2 ["in"] [] [("in", 7)] rfl

/-! ## Semantic graph relations (for claims C1 and C2) -/

/-- The edge relation of a graph: some edge goes from `u` to `v`. -/
def edgeRel (g : GraphSchema) (u v : String) : Prop :=
  ∃ e ∈ g.edges, e.source = u ∧ e.target = v

/-- Reachability: the reflexive-transitive closure of the edge relation. -/
def reaches (g : GraphSchema) : String → String → Prop :=
  Relation.ReflTransGen (edgeRel g)

/-- The graph has a directed cycle (of length ≥ 1; a self-loop counts). -/
def hasCycle (g : GraphSchema) : Prop :=
  ∃ v, Relation.TransGen (edgeRel g) v v

theorem mem_adj_iff (g : GraphSchema) (u v : String) :
    v ∈ g.adj u ↔ edgeRel g u v := by
  unfold GraphSchema.adj edgeRel
  simp only [List.mem_map, List.mem_filter, beq_iff_eq]
  constructor
  · rintro ⟨e, ⟨he, hs⟩, ht⟩
    exact ⟨e, he, hs, ht⟩
  · rintro ⟨e, he, hs, ht⟩
    exact ⟨e, ⟨he, hs⟩, ht⟩

theorem hasId_iff (g : GraphSchema) (v : String) :
    g.hasId v = true ↔ v ∈ g.ids := by
  unfold GraphSchema.hasId GraphSchema.ids
  simp only [List.any_eq_true, beq_iff_eq, List.mem_map]

theorem edgesWF_mem (g : GraphSchema) (hwf : g.edgesWF = true) :
    ∀ e ∈ g.edges, e.source ∈ g.ids ∧ e.target ∈ g.ids := by
  intro e he
  unfold GraphSchema.edgesWF at hwf
  rw [List.all_eq_true] at hwf
  have := hwf e he
  rw [Bool.and_eq_true, hasId_iff, hasId_iff] at this
  exact this

theorem edgeRel_source_mem (g : GraphSchema) (hwf : g.edgesWF = true)
    {u v : String} (h : edgeRel g u v) : u ∈ g.ids := by
  obtain ⟨e, he, hs, _⟩ := h
  have := (edgesWF_mem g hwf e he).1
  rwa [hs] at this

theorem edgeRel_target_mem (g : GraphSchema) (hwf : g.edgesWF = true)
    {u v : String} (h : edgeRel g u v) : v ∈ g.ids := by
  obtain ⟨e, he, _, ht⟩ := h
  have := (edgesWF_mem g hwf e he).2
  rwa [ht] at this

/-! ### Colour-map bookkeeping -/

theorem ColorMap.set_same (c : ColorMap) (k : String) (v : Color) :
    (c.set k v) k = v := by
  unfold ColorMap.set
  simp

theorem ColorMap.set_other (c : ColorMap) (k : String) (v : Color)
    (x : String) (hx : x ≠ k) : (c.set k v) x = c x := by
  unfold ColorMap.set
  simp [hx]

/-- The white nodes among the graph's (distinct) ids. -/
def whiteCount (g : GraphSchema) (c : ColorMap) : Nat :=
  (g.ids.toFinset.filter (fun v => c v = Color.white)).card

theorem whiteCount_le (g : GraphSchema) (c : ColorMap) :
    whiteCount g c ≤ g.nodes.length := by
  unfold whiteCount
  calc (g.ids.toFinset.filter (fun v => c v = Color.white)).card
      ≤ g.ids.toFinset.card := Finset.card_filter_le _ _
    _ ≤ g.ids.length := g.ids.toFinset_card_le
    _ = g.nodes.length := by unfold GraphSchema.ids; simp

theorem whiteCount_set_nonwhite_lt (g : GraphSchema) (c : ColorMap)
    (v : String) (hv : v ∈ g.ids) (hw : c v = Color.white) (col : Color)
    (hcol : col ≠ Color.white) :
    whiteCount g (c.set v col) < whiteCount g c := by
  unfold whiteCount
  apply Finset.card_lt_card
  constructor
  · intro x hx
    rw [Finset.mem_filter] at hx ⊢
    refine ⟨hx.1, ?_⟩
    rcases eq_or_ne x v with rfl | hne
    · rw [ColorMap.set_same] at hx
      exact absurd hx.2 hcol
    · rw [ColorMap.set_other _ _ _ _ hne] at hx
      exact hx.2
  · intro hsub
    have hv' : v ∈ g.ids.toFinset.filter (fun x => c x = Color.white) := by
      rw [Finset.mem_filter]
      exact ⟨List.mem_toFinset.mpr hv, hw⟩
    have := hsub hv'
    rw [Finset.mem_filter, ColorMap.set_same] at this
    exact hcol this.2

/-- Every colour change goes from white to a given non-white state; used to
express that a DFS phase only turns white nodes black. -/
def monoBlack (c c' : ColorMap) : Prop :=
  ∀ v, c' v ≠ c v → c v = Color.white ∧ c' v = Color.black

theorem monoBlack_refl (c : ColorMap) : monoBlack c c :=
  fun _ h => absurd rfl h

theorem monoBlack_trans {a b c : ColorMap} (h1 : monoBlack a b)
    (h2 : monoBlack b c) : monoBlack a c := by
  intro v h
  rcases eq_or_ne (b v) (a v) with hb | hb
  · have := h2 v (by rw [hb]; exact h)
    exact ⟨by rw [← hb]; exact this.1, this.2⟩
  · have hab := h1 v hb
    rcases eq_or_ne (c v) (b v) with hc | hc
    · exact ⟨hab.1, by rw [hc]; exact hab.2⟩
    · have hbc := h2 v hc
      rw [hab.2] at hbc
      cases hbc.1

theorem monoBlack_preserves {c c' : ColorMap} (h : monoBlack c c')
    (v : String) (hv : c v ≠ Color.white) : c' v = c v := by
  by_contra hne
  exact hv (h v hne).1

theorem whiteCount_mono (g : GraphSchema) {c c' : ColorMap}
    (h : monoBlack c c') : whiteCount g c' ≤ whiteCount g c := by
  unfold whiteCount
  apply Finset.card_le_card
  intro x hx
  rw [Finset.mem_filter] at hx ⊢
  refine ⟨hx.1, ?_⟩
  rcases eq_or_ne (c' x) (c x) with hcc | hcc
  · rw [← hcc]; exact hx.2
  · rw [hx.2] at hcc
    exact absurd ((h x (by rw [hx.2]; exact hcc)).2) (by rw [hx.2]; simp)

/-- The standing invariant of the cycle-check colour map: non-white nodes
are graph ids, everything reachable from a black node is black, and no
black node lies on a cycle. -/
def colorsOk (g : GraphSchema) (c : ColorMap) : Prop :=
  (∀ v, c v ≠ Color.white → v ∈ g.ids) ∧
  (∀ u v, c u = Color.black → reaches g u v → c v = Color.black) ∧
  (∀ u, c u = Color.black → ¬ Relation.TransGen (edgeRel g) u u)

/-- Every gray node reaches `u` (the gray nodes are the DFS ancestors). -/
def grayReach (g : GraphSchema) (c : ColorMap) (u : String) : Prop :=
  ∀ w, c w = Color.gray → reaches g w u

theorem dfsVisit_spec (g : GraphSchema) (hwf : g.edgesWF = true) :
    ∀ (fuel : Nat) (c : ColorMap) (u : String),
      c u = Color.white → u ∈ g.ids → colorsOk g c → grayReach g c u →
      whiteCount g c < fuel →
      ((dfsVisit g.adj fuel c u).1 = true → hasCycle g) ∧
      ((dfsVisit g.adj fuel c u).1 = false →
        monoBlack c (dfsVisit g.adj fuel c u).2 ∧
        colorsOk g (dfsVisit g.adj fuel c u).2 ∧
        (∀ v, reaches g u v →
          (dfsVisit g.adj fuel c u).2 v = Color.black)) := by
  intro fuel
  induction fuel with
  | zero =>
    intro c u _ _ _ _ hfuel
    exact absurd hfuel (Nat.not_lt_zero _)
  | succ fuel ih =>
    -- the neighbour-scan lemma at this fuel level
    have scan : ∀ (l : List String) (c : ColorMap) (u₀ : String),
        (∀ nb ∈ l, edgeRel g u₀ nb) →
        c u₀ = Color.gray → colorsOk g c → grayReach g c u₀ →
        whiteCount g c < fuel →
        ((dfsScan (dfsVisit g.adj fuel) c l).1 = true → hasCycle g) ∧
        ((dfsScan (dfsVisit g.adj fuel) c l).1 = false →
          monoBlack c (dfsScan (dfsVisit g.adj fuel) c l).2 ∧
          colorsOk g (dfsScan (dfsVisit g.adj fuel) c l).2 ∧
          (∀ nb ∈ l,
            (dfsScan (dfsVisit g.adj fuel) c l).2 nb = Color.black)) := by
      intro l
      induction l with
      | nil =>
        intro c u₀ _ _ hok _ _
        have hstep : dfsScan (dfsVisit g.adj fuel) c [] = (false, c) := rfl
        rw [hstep]
        exact ⟨fun h => by simp at h,
          fun _ => ⟨monoBlack_refl c, hok, fun nb hnb => by cases hnb⟩⟩
      | cons nb rest ihl =>
        intro c u₀ hedges hgray hok hgr hfuel
        have hedge : edgeRel g u₀ nb := hedges nb (List.mem_cons_self _ _)
        rcases hcnb : c nb with hw | hg | hb
        · -- white neighbour: recursive visit
          have hnbid : nb ∈ g.ids := edgeRel_target_mem g hwf hedge
          have hgrnb : grayReach g c nb := by
            intro w hwg
            exact Relation.ReflTransGen.tail (hgr w hwg) hedge
          have hvisit := ih c nb hcnb hnbid hok hgrnb hfuel
          rcases hres : dfsVisit g.adj fuel c nb with ⟨b, c₂⟩
          rw [hres] at hvisit
          simp only at hvisit
          rcases b with _ | _
          · -- visit returned false: continue the scan from c₂
            obtain ⟨hmono, hok₂, hreach⟩ := hvisit.2 rfl
            have hgray₂ : c₂ u₀ = Color.gray := by
              rw [monoBlack_preserves hmono u₀ (by rw [hgray]; simp)]
              exact hgray
            have hgr₂ : grayReach g c₂ u₀ := by
              intro w hwg
              apply hgr w
              rcases eq_or_ne (c₂ w) (c w) with hcc | hcc
              · rw [← hcc]; exact hwg
              · rw [(hmono w hcc).2] at hwg
                cases hwg
            have hfuel₂ : whiteCount g c₂ < fuel :=
              lt_of_le_of_lt (whiteCount_mono g hmono) hfuel
            have hrest := ihl c₂ u₀
              (fun x hx => hedges x (List.mem_cons_of_mem _ hx))
              hgray₂ hok₂ hgr₂ hfuel₂
            have hstep : dfsScan (dfsVisit g.adj fuel) c (nb :: rest) =
                dfsScan (dfsVisit g.adj fuel) c₂ rest := by
              simp only [dfsScan, hcnb, hres]
            rw [hstep]
            refine ⟨hrest.1, fun hfalse => ?_⟩
            obtain ⟨hmono', hok', hblack'⟩ := hrest.2 hfalse
            refine ⟨monoBlack_trans hmono hmono', hok', ?_⟩
            intro x hx
            rcases List.mem_cons.mp hx with rfl | hx'
            · have hb2 : c₂ x = Color.black := hreach x .refl
              rw [monoBlack_preserves hmono' x (by rw [hb2]; simp)]
              exact hb2
            · exact hblack' x hx'
          · -- visit returned true: cycle found
            have hstep : dfsScan (dfsVisit g.adj fuel) c (nb :: rest) =
                (true, c₂) := by
              simp only [dfsScan, hcnb, hres]
            rw [hstep]
            exact ⟨fun _ => hvisit.1 rfl, fun h => by simp at h⟩
        · -- gray neighbour: cycle through nb
          have hstep : dfsScan (dfsVisit g.adj fuel) c (nb :: rest) =
              (true, c) := by
            simp only [dfsScan, hcnb]
          rw [hstep]
          refine ⟨fun _ => ⟨nb, ?_⟩, fun h => by simp at h⟩
          exact Relation.TransGen.tail' (hgr nb hcnb) hedge
        · -- black neighbour: skip
          have hstep : dfsScan (dfsVisit g.adj fuel) c (nb :: rest) =
              dfsScan (dfsVisit g.adj fuel) c rest := by
            simp only [dfsScan, hcnb]
          rw [hstep]
          have hrest := ihl c u₀
            (fun x hx => hedges x (List.mem_cons_of_mem _ hx))
            hgray hok hgr hfuel
          refine ⟨hrest.1, fun hfalse => ?_⟩
          obtain ⟨hmono', hok', hblack'⟩ := hrest.2 hfalse
          refine ⟨hmono', hok', ?_⟩
          intro x hx
          rcases List.mem_cons.mp hx with rfl | hx'
          · rw [monoBlack_preserves hmono' x (by rw [hcnb]; simp)]
            exact hcnb
          · exact hblack' x hx'
    -- the visit itself
    intro c u hwhite hid hok hgr hfuel
    have hc₁gray : (c.set u Color.gray) u = Color.gray := ColorMap.set_same _ _ _
    have hok₁ : colorsOk g (c.set u Color.gray) := by
      obtain ⟨hi, hb, hc⟩ := hok
      have hnoreach : ∀ x, c x = Color.black → ¬ reaches g x u := by
        intro x hx hr
        have := hb x u hx hr
        rw [hwhite] at this
        cases this
      refine ⟨?_, ?_, ?_⟩
      · intro v hv
        rcases eq_or_ne v u with rfl | hne
        · exact hid
        · rw [ColorMap.set_other _ _ _ _ hne] at hv
          exact hi v hv
      · intro x v hx hr
        rcases eq_or_ne x u with rfl | hnex
        · rw [ColorMap.set_same] at hx
          cases hx
        · rw [ColorMap.set_other _ _ _ _ hnex] at hx
          rcases eq_or_ne v u with rfl | hnev
          · exact absurd hr (hnoreach x hx)
          · rw [ColorMap.set_other _ _ _ _ hnev]
            exact hb x v hx hr
      · intro x hx
        rcases eq_or_ne x u with rfl | hnex
        · rw [ColorMap.set_same] at hx
          cases hx
        · rw [ColorMap.set_other _ _ _ _ hnex] at hx
          exact hc x hx
    have hgr₁ : grayReach g (c.set u Color.gray) u := by
      intro w hwg
      rcases eq_or_ne w u with rfl | hne
      · exact Relation.ReflTransGen.refl
      · rw [ColorMap.set_other _ _ _ _ hne] at hwg
        exact hgr w hwg
    have hfuel₁ : whiteCount g (c.set u Color.gray) < fuel := by
      have h1 := whiteCount_set_nonwhite_lt g c u hid hwhite Color.gray
        (by simp)
      omega
    have hedges : ∀ nb ∈ g.adj u, edgeRel g u nb := by
      intro nb hnb
      exact (mem_adj_iff g u nb).mp hnb
    have hscan := scan (g.adj u) (c.set u Color.gray) u hedges hc₁gray hok₁
      hgr₁ hfuel₁
    rcases hres : dfsScan (dfsVisit g.adj fuel) (c.set u Color.gray)
        (g.adj u) with ⟨b, c₂⟩
    rw [hres] at hscan
    simp only at hscan
    rcases b with _ | _
    · -- scan false: blacken u
      obtain ⟨hmono, hok₂, hblack⟩ := hscan.2 rfl
      have hstep : dfsVisit g.adj (fuel + 1) c u =
          (false, c₂.set u Color.black) := by
        unfold dfsVisit
        rw [hres]
      rw [hstep]
      refine ⟨fun h => by simp at h, fun _ => ?_⟩
      dsimp only
      have hgray₂ : c₂ u = Color.gray := by
        rw [monoBlack_preserves hmono u (by rw [hc₁gray]; simp)]
        exact hc₁gray
      have hreachblack : ∀ v, reaches g u v →
          (c₂.set u Color.black) v = Color.black := by
        intro v hr
        rcases (Relation.ReflTransGen.cases_head hr) with rfl | ⟨nb, hnb, hr'⟩
        · exact ColorMap.set_same _ _ _
        · have hnbadj : nb ∈ g.adj u := (mem_adj_iff g u nb).mpr hnb
          have hnbb : c₂ nb = Color.black := hblack nb hnbadj
          have hvb : c₂ v = Color.black := hok₂.2.1 nb v hnbb hr'
          rcases eq_or_ne v u with rfl | hne
          · exact ColorMap.set_same _ _ _
          · rw [ColorMap.set_other _ _ _ _ hne]
            exact hvb
      refine ⟨?_, ⟨?_, ?_, ?_⟩, hreachblack⟩
      · -- monoBlack c (c₂.set u black)
        intro v hv
        rcases eq_or_ne v u with rfl | hne
        · exact ⟨hwhite, ColorMap.set_same _ _ _⟩
        · rw [ColorMap.set_other _ _ _ _ hne] at hv ⊢
          rcases eq_or_ne (c₂ v) ((c.set u Color.gray) v) with hcc | hcc
          · rw [ColorMap.set_other _ _ _ _ hne] at hcc
            exact absurd hcc.symm (by exact fun h => hv h.symm)
          · have := hmono v hcc
            rw [ColorMap.set_other _ _ _ _ hne] at this
            exact this
      · -- ids
        intro v hv
        rcases eq_or_ne v u with rfl | hne
        · exact hid
        · rw [ColorMap.set_other _ _ _ _ hne] at hv
          have := hok₂.1 v hv
          exact this
      · -- INV_B
        intro x v hx hr
        rcases eq_or_ne x u with rfl | hnex
        · exact hreachblack v hr
        · rw [ColorMap.set_other _ _ _ _ hnex] at hx
          have hvb := hok₂.2.1 x v hx hr
          rcases eq_or_ne v u with rfl | hnev
          · rw [hgray₂] at hvb
            cases hvb
          · rw [ColorMap.set_other _ _ _ _ hnev]
            exact hvb
      · -- INV_C
        intro x hx
        rcases eq_or_ne x u with rfl | hnex
        · intro hcyc
          obtain ⟨nb, hnb, htg⟩ := Relation.TransGen.head'_iff.mp hcyc
          have hnbadj : nb ∈ g.adj x := (mem_adj_iff g x nb).mpr hnb
          have hnbb : c₂ nb = Color.black := hblack nb hnbadj
          have := hok₂.2.1 nb x hnbb htg
          rw [hgray₂] at this
          cases this
        · rw [ColorMap.set_other _ _ _ _ hnex] at hx
          exact hok₂.2.2 x hx
    · -- scan true: cycle
      have hstep : dfsVisit g.adj (fuel + 1) c u = (true, c₂) := by
        unfold dfsVisit
        rw [hres]
      rw [hstep]
      exact ⟨fun _ => hscan.1 rfl, fun h => by simp at h⟩

/-- The body of the `for node in graph.nodes` cycle-check driver, named so
the fold can be reasoned about. -/
def cycleStep (g : GraphSchema) (acc : Bool × ColorMap) (n : GraphNode) :
    Bool × ColorMap :=
  match acc with
  | (true, c) => (true, c)
  | (false, c) =>
    if c n.id = .white then dfsVisit g.adj (g.nodes.length + 1) c n.id
    else (false, c)

theorem cycleCheck_eq_fold (g : GraphSchema) :
    cycleCheck g =
      (g.nodes.foldl (cycleStep g) (false, fun _ => Color.white)).1 := rfl

theorem cycleFold_true (g : GraphSchema) (l : List GraphNode) (c : ColorMap) :
    l.foldl (cycleStep g) (true, c) = (true, c) := by
  induction l generalizing c with
  | nil => rfl
  | cons n rest ih => exact ih c

theorem cycleFold_spec (g : GraphSchema) (hwf : g.edgesWF = true) :
    ∀ (l : List GraphNode) (c : ColorMap),
      (∀ n ∈ l, n.id ∈ g.ids) → colorsOk g c → (∀ w, c w ≠ Color.gray) →
      ((l.foldl (cycleStep g) (false, c)).1 = true → hasCycle g) ∧
      ((l.foldl (cycleStep g) (false, c)).1 = false →
        monoBlack c (l.foldl (cycleStep g) (false, c)).2 ∧
        colorsOk g (l.foldl (cycleStep g) (false, c)).2 ∧
        (∀ w, (l.foldl (cycleStep g) (false, c)).2 w ≠ Color.gray) ∧
        (∀ n ∈ l,
          (l.foldl (cycleStep g) (false, c)).2 n.id = Color.black)) := by
  intro l
  induction l with
  | nil =>
    intro c _ hok hnog
    exact ⟨fun h => by simp at h,
      fun _ => ⟨monoBlack_refl c, hok, hnog, fun n hn => by cases hn⟩⟩
  | cons n rest ih =>
    intro c hmem hok hnog
    have hnid : n.id ∈ g.ids := hmem n (List.mem_cons_self _ _)
    by_cases hc : c n.id = Color.white
    · -- white: a fresh dfs call
      have hgr : grayReach g c n.id := fun w hwg => absurd hwg (hnog w)
      have hfuel : whiteCount g c < g.nodes.length + 1 :=
        Nat.lt_succ_of_le (whiteCount_le g c)
      have hvisit := dfsVisit_spec g hwf (g.nodes.length + 1) c n.id hc hnid
        hok hgr hfuel
      rcases hres : dfsVisit g.adj (g.nodes.length + 1) c n.id with ⟨b, c₂⟩
      rw [hres] at hvisit
      simp only at hvisit
      have hstep : cycleStep g (false, c) n = (b, c₂) := by
        unfold cycleStep
        dsimp only
        rw [if_pos hc, hres]
      rcases b with _ | _
      · -- visit found no cycle
        obtain ⟨hmono, hok₂, hreach⟩ := hvisit.2 rfl
        have hnog₂ : ∀ w, c₂ w ≠ Color.gray := by
          intro w hwg
          rcases eq_or_ne (c₂ w) (c w) with hcc | hcc
          · rw [hcc] at hwg
            exact hnog w hwg
          · rw [(hmono w hcc).2] at hwg
            cases hwg
        have hrest := ih c₂ (fun x hx => hmem x (List.mem_cons_of_mem _ hx))
          hok₂ hnog₂
        have hfold : (n :: rest).foldl (cycleStep g) (false, c) =
            rest.foldl (cycleStep g) (false, c₂) := by
          rw [List.foldl_cons, hstep]
        rw [hfold]
        refine ⟨hrest.1, fun hfalse => ?_⟩
        obtain ⟨hmono', hok', hnog', hblack'⟩ := hrest.2 hfalse
        refine ⟨monoBlack_trans hmono hmono', hok', hnog', ?_⟩
        intro x hx
        rcases List.mem_cons.mp hx with rfl | hx'
        · have hb2 : c₂ x.id = Color.black := hreach x.id .refl
          rw [monoBlack_preserves hmono' x.id (by rw [hb2]; simp)]
          exact hb2
        · exact hblack' x hx'
      · -- visit found a cycle: the fold short-circuits
        have hfold : (n :: rest).foldl (cycleStep g) (false, c) =
            (true, c₂) := by
          rw [List.foldl_cons, hstep, cycleFold_true]
        rw [hfold]
        exact ⟨fun _ => hvisit.1 rfl, fun h => by simp at h⟩
    · -- already coloured (hence black): skip
      have hblackn : c n.id = Color.black := by
        rcases hcn : c n.id with _ | _ | _
        · exact absurd hcn hc
        · exact absurd hcn (hnog n.id)
        · rfl
      have hstep : cycleStep g (false, c) n = (false, c) := by
        unfold cycleStep
        dsimp only
        rw [if_neg hc]
      have hfold : (n :: rest).foldl (cycleStep g) (false, c) =
          rest.foldl (cycleStep g) (false, c) := by
        rw [List.foldl_cons, hstep]
      rw [hfold]
      have hrest := ih c (fun x hx => hmem x (List.mem_cons_of_mem _ hx))
        hok hnog
      refine ⟨hrest.1, fun hfalse => ?_⟩
      obtain ⟨hmono', hok', hnog', hblack'⟩ := hrest.2 hfalse
      refine ⟨hmono', hok', hnog', ?_⟩
      intro x hx
      rcases List.mem_cons.mp hx with rfl | hx'
      · rw [monoBlack_preserves hmono' x.id (by rw [hblackn]; simp)]
        exact hblackn
      · exact hblack' x hx'

/-- The three-colour DFS driver decides exactly the existence of a directed
cycle, on graphs whose edges reference existing nodes. -/
theorem cycleCheck_iff (g : GraphSchema) (hwf : g.edgesWF = true) :
    cycleCheck g = true ↔ hasCycle g := by
  have hok0 : colorsOk g (fun _ => Color.white) := by
    refine ⟨?_, ?_, ?_⟩
    · intro v hv
      exact absurd rfl hv
    · intro u v hu hr
      simp at hu
    · intro u hu
      simp at hu
  have hnog0 : ∀ w : String, (fun _ : String => Color.white) w ≠ Color.gray := by
    intro w h
    cases h
  have hmem0 : ∀ n ∈ g.nodes, n.id ∈ g.ids := by
    intro n hn
    exact List.mem_map.mpr ⟨n, hn, rfl⟩
  have hspec := cycleFold_spec g hwf g.nodes (fun _ => Color.white)
    hmem0 hok0 hnog0
  rw [cycleCheck_eq_fold]
  constructor
  · exact hspec.1
  · intro hcyc
    by_contra hfalse
    rw [Bool.not_eq_true] at hfalse
    obtain ⟨_, hok', _, hblack'⟩ := hspec.2 hfalse
    obtain ⟨v, hv⟩ := hcyc
    obtain ⟨nb, hnb, _⟩ := Relation.TransGen.head'_iff.mp hv
    have hvid : v ∈ g.ids := edgeRel_source_mem g hwf hnb
    obtain ⟨n, hn, hnid⟩ := List.mem_map.mp hvid
    have hvb := hblack' n hn
    rw [hnid] at hvb
    exact hok'.2.2 v hvb hv

/-! ## `validate_graph`: result characterisation -/

theorem exceptFold_shape {β : Type} (f : Unit → β → Except PyErr Unit)
    (hf : ∀ b, f () b = Except.ok () ∨
      ∃ m i, f () b = Except.error (.validationError m i)) :
    ∀ l : List β, List.foldlM f () l = Except.ok () ∨
      ∃ m i, List.foldlM f () l = Except.error (.validationError m i) := by
  intro l
  induction l with
  | nil => exact Or.inl rfl
  | cons a rest ih =>
    rw [List.foldlM_cons]
    rcases hf a with h | ⟨m, i, h⟩
    · rw [h, bindOk]
      exact ih
    · rw [h, bindErr]
      exact Or.inr ⟨m, i, rfl⟩

theorem checkEdges_shape (g : GraphSchema) :
    checkEdges g = Except.ok () ∨
      ∃ m i, checkEdges g = Except.error (.validationError m i) := by
  unfold checkEdges
  apply exceptFold_shape
  intro e
  dsimp only
  by_cases hs : ((!g.hasId e.source) = true)
  · rw [if_pos hs]
    exact Or.inr ⟨_, _, rfl⟩
  · rw [if_neg hs]
    by_cases ht : ((!g.hasId e.target) = true)
    · rw [if_pos ht]
      exact Or.inr ⟨_, _, rfl⟩
    · rw [if_neg ht]
      exact Or.inl rfl

theorem checkArity_shape (g : GraphSchema) :
    checkArity g = Except.ok () ∨
      ∃ m i, checkArity g = Except.error (.validationError m i) := by
  unfold checkArity
  apply exceptFold_shape
  intro n
  dsimp only
  by_cases h1 : (n.type == "input") = true
  · rw [if_pos h1]
    exact Or.inl rfl
  · rw [if_neg h1]
    by_cases h2 : (n.type == "add") = true
    · rw [if_pos h2]
      by_cases h3 : (g.incoming n.id).length ≠ 2
      · rw [if_pos h3]
        exact Or.inr ⟨_, _, rfl⟩
      · rw [if_neg h3]
        exact Or.inl rfl
    · rw [if_neg h2]
      by_cases h4 : (n.type == "concat") = true
      · rw [if_pos h4]
        by_cases h5 : (g.incoming n.id).length < 2
        · rw [if_pos h5]
          exact Or.inr ⟨_, _, rfl⟩
        · rw [if_neg h5]
          exact Or.inl rfl
      · rw [if_neg h4]
        by_cases h6 : ((g.incoming n.id).length == 0) = true
        · rw [if_pos h6]
          exact Or.inr ⟨_, _, rfl⟩
        · rw [if_neg h6]
          exact Or.inl rfl

theorem checkEdges_ok_iff (g : GraphSchema) :
    checkEdges g = Except.ok () ↔ g.edgesWF = true := by
  unfold checkEdges GraphSchema.edgesWF
  have main : ∀ l : List GraphEdge,
      (List.foldlM (fun (_ : Unit) e =>
        if !(g.hasId e.source) then
          Except.error (PyErr.validationError
            ("Edge references unknown source node: " ++ e.source) none)
        else if !(g.hasId e.target) then
          Except.error (PyErr.validationError
            ("Edge references unknown target node: " ++ e.target) none)
        else Except.ok ()) () l = Except.ok ()) ↔
      (l.all (fun e => g.hasId e.source && g.hasId e.target) = true) := by
    intro l
    induction l with
    | nil => exact ⟨fun _ => rfl, fun _ => rfl⟩
    | cons e rest ih =>
      rw [List.foldlM_cons, List.all_cons]
      rcases hs : g.hasId e.source with _ | _
      · simp only [hs, Bool.not_false, if_true, bindErr]
        constructor
        · intro h
          cases h
        · intro h
          simp at h
      · rcases ht : g.hasId e.target with _ | _
        · simp only [hs, ht, Bool.not_true, Bool.not_false, if_false, if_true,
            bindErr]
          constructor
          · intro h
            cases h
          · intro h
            simp at h
        · simp only [hs, ht, Bool.not_true, if_false, bindOk, Bool.true_and]
          exact ih
  exact main g.edges

theorem throwBind {α β : Type} (e : PyErr) (f : α → Except PyErr β) :
    Bind.bind (throw e) f = Except.error e := rfl

theorem pureBind {α β : Type} (a : α) (f : α → Except PyErr β) :
    Bind.bind (pure a) f = f a := rfl

theorem validate_ok_inv (g : GraphSchema)
    (h : validate_graph g = Except.ok ()) :
    checkEdges g = Except.ok () ∧ cycleCheck g = false := by
  unfold validate_graph at h
  dsimp only at h
  rcases hemp : g.nodes.isEmpty with _ | _ <;> rw [hemp] at h
  all_goals try (rw [if_pos rfl, throwBind] at h; cases h)
  rw [if_neg Bool.false_ne_true, pureBind] at h
  rcases hin0 : ((g.nodes.filter (fun n => n.type == "input")).length == 0)
      with _ | _ <;> rw [hin0] at h
  all_goals try (rw [if_pos rfl, throwBind] at h; cases h)
  rw [if_neg Bool.false_ne_true, pureBind] at h
  by_cases hin1 : (g.nodes.filter (fun n => n.type == "input")).length > 1
  all_goals try (rw [if_pos hin1, throwBind] at h; cases h)
  rw [if_neg hin1, pureBind] at h
  rcases hout0 : ((g.nodes.filter (fun n => n.type == "output")).length == 0)
      with _ | _ <;> rw [hout0] at h
  all_goals try (rw [if_pos rfl, throwBind] at h; cases h)
  rw [if_neg Bool.false_ne_true, pureBind] at h
  by_cases hout1 : (g.nodes.filter (fun n => n.type == "output")).length > 1
  all_goals try (rw [if_pos hout1, throwBind] at h; cases h)
  rw [if_neg hout1, pureBind] at h
  rcases hce : checkEdges g with e | u
  · rw [hce, bindErr] at h
    cases h
  · rcases u
    rw [hce, bindOk] at h
    rcases hcyc : cycleCheck g with _ | _ <;> rw [hcyc] at h
    all_goals try (rw [if_pos rfl, throwBind] at h; cases h)
    exact ⟨rfl, rfl⟩

theorem validate_shape (g : GraphSchema) :
    validate_graph g = Except.ok () ∨
      ∃ m i, validate_graph g = Except.error (.validationError m i) := by
  unfold validate_graph
  dsimp only
  rcases hemp : g.nodes.isEmpty with _ | _
  all_goals try (rw [if_pos rfl, throwBind]; exact Or.inr ⟨_, _, rfl⟩)
  rw [if_neg Bool.false_ne_true, pureBind]
  rcases hin0 : ((g.nodes.filter (fun n => n.type == "input")).length == 0)
      with _ | _
  all_goals try (rw [if_pos rfl, throwBind]; exact Or.inr ⟨_, _, rfl⟩)
  rw [if_neg Bool.false_ne_true, pureBind]
  by_cases hin1 : (g.nodes.filter (fun n => n.type == "input")).length > 1
  all_goals try (rw [if_pos hin1, throwBind]; exact Or.inr ⟨_, _, rfl⟩)
  rw [if_neg hin1, pureBind]
  rcases hout0 : ((g.nodes.filter (fun n => n.type == "output")).length == 0)
      with _ | _
  all_goals try (rw [if_pos rfl, throwBind]; exact Or.inr ⟨_, _, rfl⟩)
  rw [if_neg Bool.false_ne_true, pureBind]
  by_cases hout1 : (g.nodes.filter (fun n => n.type == "output")).length > 1
  all_goals try (rw [if_pos hout1, throwBind]; exact Or.inr ⟨_, _, rfl⟩)
  rw [if_neg hout1, pureBind]
  rcases checkEdges_shape g with hce | ⟨m, i, hce⟩
  all_goals try (rw [hce, bindErr]; exact Or.inr ⟨m, i, rfl⟩)
  rw [hce, bindOk]
  rcases hcyc : cycleCheck g with _ | _
  all_goals try (rw [if_pos rfl, throwBind]; exact Or.inr ⟨_, _, rfl⟩)
  rw [if_neg Bool.false_ne_true, pureBind]
  rcases Bool.eq_false_or_eq_true
      (((firstDedup g.ids).filter (fun i =>
        !((reachableFrom g
            (g.nodes.filter (fun n => n.type == "input")).head!.id).contains
          i))).isEmpty) with hun | hun
  · rw [if_neg (by rw [hun]; decide), pureBind]
    rcases Bool.eq_false_or_eq_true
        ((reachableFrom g
          (g.nodes.filter (fun n => n.type == "input")).head!.id).contains
          (g.nodes.filter (fun n => n.type == "output")).head!.id)
        with hor | hor
    · rw [if_neg (by rw [hor]; decide), pureBind]
      exact checkArity_shape g
    · rw [if_pos (by rw [hor]; decide), throwBind]
      exact Or.inr ⟨_, _, rfl⟩
  · rw [if_pos (by rw [hun]; decide), throwBind]
    exact Or.inr ⟨_, _, rfl⟩

theorem validate_ok_intro (g : GraphSchema)
    (hnodes : g.nodes.isEmpty = false)
    (hin : (g.nodes.filter (fun n => n.type == "input")).length = 1)
    (hout : (g.nodes.filter (fun n => n.type == "output")).length = 1)
    (hedges : checkEdges g = Except.ok ())
    (hcyc : cycleCheck g = false)
    (hreach : ((firstDedup g.ids).filter (fun i =>
        !((reachableFrom g
            (g.nodes.filter (fun n => n.type == "input")).head!.id).contains
          i))).isEmpty = true)
    (houtr : (reachableFrom g
        (g.nodes.filter (fun n => n.type == "input")).head!.id).contains
        (g.nodes.filter (fun n => n.type == "output")).head!.id = true)
    (harity : checkArity g = Except.ok ()) :
    validate_graph g = Except.ok () := by
  unfold validate_graph
  dsimp only
  rw [hnodes, if_neg Bool.false_ne_true, pureBind]
  rw [hin]
  rw [if_neg (by decide : ¬((1 == 0) = true)), pureBind]
  rw [if_neg (by omega : ¬(1 > 1)), pureBind]
  rw [hout]
  rw [if_neg (by decide : ¬((1 == 0) = true)), pureBind]
  rw [if_neg (by omega : ¬(1 > 1)), pureBind]
  rw [hedges, bindOk]
  rw [hcyc, if_neg Bool.false_ne_true, pureBind]
  rw [hreach, if_neg (by decide : ¬((!true) = true)), pureBind]
  rw [houtr, if_neg (by decide : ¬((!true) = true)), pureBind]
  exact harity

/-- C2: for every graph with a directed cycle through two (or more) distinct
nodes — in any position, including a component disconnected from the input
node — `validate_graph` returns a ValidationError; and any acyclic graph in
which every other validation stage passes (nonempty node list, exactly one
input and one output node, edge endpoints resolving to known nodes, every
node reachable from the input, the output reachable, and the per-type arity
checks succeeding) validates successfully. -/
theorem cycle_validation_rule (g g' : GraphSchema)
    (v w : String) (hvw : v ≠ w)
    (hc1 : Relation.TransGen (edgeRel g) v w)
    (hc2 : Relation.TransGen (edgeRel g) w v)
    (hnodes : g'.nodes.isEmpty = false)
    (hin : (g'.nodes.filter (fun n => n.type == "input")).length = 1)
    (hout : (g'.nodes.filter (fun n => n.type == "output")).length = 1)
    (hedges : checkEdges g' = Except.ok ())
    (hacyc : ¬ hasCycle g')
    (hreach : ((firstDedup g'.ids).filter (fun i =>
        !((reachableFrom g'
            (g'.nodes.filter (fun n => n.type == "input")).head!.id).contains
          i))).isEmpty = true)
    (houtr : (reachableFrom g'
        (g'.nodes.filter (fun n => n.type == "input")).head!.id).contains
        (g'.nodes.filter (fun n => n.type == "output")).head!.id = true)
    (harity : checkArity g' = Except.ok ()) :
    (∃ msg nid,
      validate_graph g = Except.error (PyErr.validationError msg nid)) ∧
    validate_graph g' = Except.ok () := by
  constructor
  · rcases validate_shape g with hok | hshape
    · exfalso
      obtain ⟨hce, hcyc⟩ := validate_ok_inv g hok
      have hwf : g.edgesWF = true := (checkEdges_ok_iff g).mp hce
      have hcy : hasCycle g := ⟨v, hc1.trans hc2⟩
      have := (cycleCheck_iff g hwf).mpr hcy
      rw [hcyc] at this
      cases this
    · exact hshape
  · have hwf' : g'.edgesWF = true := (checkEdges_ok_iff g').mp hedges
    have hcyc' : cycleCheck g' = false := by
      rcases Bool.eq_false_or_eq_true (cycleCheck g') with h | h
      · exact absurd ((cycleCheck_iff g' hwf').mp h) hacyc
      · exact h
    exact validate_ok_intro g' hnodes hin hout hedges hcyc' hreach houtr
      harity

/-- An input→a→b→output chain with an extra back edge b→a forming a
two-node cycle. -/
def egCycle : GraphSchema :=
  { nodes := [⟨"in", "input", [("shape", .vList [.vInt 2])]⟩,
      ⟨"a", "relu", []⟩, ⟨"b", "relu", []⟩, ⟨"out", "output", []⟩],
    edges := [⟨"e1", "in", "out", "a", "in"⟩, ⟨"e2", "a", "out", "b", "in"⟩,
      ⟨"e3", "b", "out", "out", "in"⟩, ⟨"e4", "b", "out", "a", "in"⟩] }

/-- `egCycle` with the cycle's back edge removed. -/
def egCycleFree : GraphSchema :=
  { nodes := [⟨"in", "input", [("shape", .vList [.vInt 2])]⟩,
      ⟨"a", "relu", []⟩, ⟨"b", "relu", []⟩, ⟨"out", "output", []⟩],
    edges := [⟨"e1", "in", "out", "a", "in"⟩, ⟨"e2", "a", "out", "b", "in"⟩,
      ⟨"e3", "b", "out", "out", "in"⟩] }

theorem cycle_validation_rule_witness :
    (∃ msg nid,
      validate_graph egCycle = Except.error (PyErr.validationError msg nid)) ∧
    validate_graph egCycleFree = Except.ok () :=
  cycle_validation_rule egCycle egCycleFree "a" "b" (by decide)
    (Relation.TransGen.single
      ⟨⟨"e2", "a", "out", "b", "in"⟩, by decide, rfl, rfl⟩)
    (Relation.TransGen.single
      ⟨⟨"e4", "b", "out", "a", "in"⟩, by decide, rfl, rfl⟩)
    rfl rfl rfl rfl
    (fun hcy =>
      Bool.false_ne_true ((cycleCheck_iff egCycleFree rfl).mpr hcy))
    rfl rfl rfl

/-! ## `topological_sort`: correctness of Kahn's algorithm -/

theorem firstDedup_go_mem (l : List String) :
    ∀ (acc : List String) (x : String),
      (x ∈ l.foldl
        (fun acc k => if acc.contains k then acc else acc ++ [k]) acc ↔
        x ∈ acc ∨ x ∈ l) := by
  induction l with
  | nil => intro acc x; simp
  | cons a rest ih =>
    intro acc x
    rw [List.foldl_cons]
    by_cases hc : acc.contains a
    · rw [if_pos hc, ih]
      have ha : a ∈ acc := by simpa using hc
      constructor
      · rintro (h | h)
        · exact Or.inl h
        · exact Or.inr (List.mem_cons_of_mem _ h)
      · rintro (h | h)
        · exact Or.inl h
        · rcases List.mem_cons.mp h with rfl | h'
          · exact Or.inl ha
          · exact Or.inr h'
    · rw [if_neg hc, ih]
      constructor
      · rintro (h | h)
        · rcases List.mem_append.mp h with h' | h'
          · exact Or.inl h'
          · rw [List.mem_singleton.mp h']
            exact Or.inr (List.mem_cons_self _ _)
        · exact Or.inr (List.mem_cons_of_mem _ h)
      · rintro (h | h)
        · exact Or.inl (List.mem_append.mpr (Or.inl h))
        · rcases List.mem_cons.mp h with rfl | h'
          · exact Or.inl (List.mem_append.mpr (Or.inr (List.mem_singleton.mpr rfl)))
          · exact Or.inr h'

theorem firstDedup_mem (l : List String) (x : String) :
    x ∈ firstDedup l ↔ x ∈ l := by
  unfold firstDedup
  rw [firstDedup_go_mem]
  simp

theorem firstDedup_go_nodup (l : List String) :
    ∀ acc : List String, acc.Nodup →
      (l.foldl
        (fun acc k => if acc.contains k then acc else acc ++ [k]) acc).Nodup := by
  induction l with
  | nil => intro acc h; simpa using h
  | cons a rest ih =>
    intro acc hacc
    rw [List.foldl_cons]
    by_cases hc : acc.contains a
    · rw [if_pos hc]
      exact ih acc hacc
    · rw [if_neg hc]
      apply ih
      have ha : a ∉ acc := by simpa using hc
      simp [List.nodup_append, hacc, ha]

theorem firstDedup_nodup (l : List String) : (firstDedup l).Nodup :=
  firstDedup_go_nodup l [] List.nodup_nil

theorem firstDedup_length_le (l : List String) :
    (firstDedup l).length ≤ l.length := by
  have hnd := firstDedup_nodup l
  calc (firstDedup l).length = (firstDedup l).toFinset.card :=
        (List.toFinset_card_of_nodup hnd).symm
    _ ≤ l.toFinset.card := Finset.card_le_card (by
        intro x hx
        rw [List.mem_toFinset] at hx ⊢
        exact (firstDedup_mem l x).mp hx)
    _ ≤ l.length := l.toFinset_card_le

/-- The number of edges into `v` whose source has not yet been emitted:
the value Kahn's in-degree table holds for `v` once the nodes of `result`
have all been dequeued and scanned. -/
def remIn (g : GraphSchema) (result : List String) (v : String) : Nat :=
  (g.edges.filter
    (fun e => e.target == v && !(result.contains e.source))).length

theorem kahnScan_spec (l : List String) :
    ∀ (indeg : String → Int) (q : List String),
      (∀ x, (kahnScan indeg q l).1 x = indeg x - (l.count x : Int)) ∧
      ∃ ap, (kahnScan indeg q l).2 = q ++ ap ∧ ap.Nodup ∧
        (∀ x, x ∈ ap ↔ (1 ≤ indeg x ∧ indeg x ≤ (l.count x : Int))) := by
  induction l with
  | nil =>
    intro indeg q
    refine ⟨fun x => by simp [kahnScan], [], by simp [kahnScan],
      List.nodup_nil, fun x => ?_⟩
    constructor
    · intro h
      cases h
    · rintro ⟨h1, h2⟩
      simp only [List.count_nil, Nat.cast_zero] at h2
      omega
  | cons nb rest ih =>
    intro indeg q
    have hstep : kahnScan indeg q (nb :: rest) =
        kahnScan (fun x => if x == nb then indeg nb - 1 else indeg x)
          (if (indeg nb - 1) == 0 then q ++ [nb] else q) rest := rfl
    rw [hstep]
    refine ⟨?_, ?_⟩
    · obtain ⟨h1, _⟩ := ih
        (fun x => if x == nb then indeg nb - 1 else indeg x)
        (if (indeg nb - 1) == 0 then q ++ [nb] else q)
      intro x
      rw [h1 x]
      by_cases hx : x = nb
      · subst hx
        simp only [beq_self_eq_true, if_true, List.count_cons_self]
        push_cast
        omega
      · simp [beq_eq_false_iff_ne.mpr hx, List.count_cons_of_ne hx]
    · by_cases hd0 : indeg nb - 1 = 0
      · rw [if_pos (beq_iff_eq.mpr hd0)]
        obtain ⟨_, ap', hq', hnd', hiff'⟩ := ih
          (fun x => if x == nb then indeg nb - 1 else indeg x) (q ++ [nb])
        refine ⟨nb :: ap', ?_, ?_, ?_⟩
        · rw [hq', List.append_assoc]
          rfl
        · refine List.nodup_cons.mpr ⟨?_, hnd'⟩
          intro hmem
          have := (hiff' nb).mp hmem
          simp only [beq_self_eq_true, if_true] at this
          omega
        · intro x
          rw [List.mem_cons, hiff' x]
          by_cases hx : x = nb
          · subst hx
            constructor
            · intro _
              refine ⟨by omega, ?_⟩
              rw [List.count_cons_self]
              push_cast
              omega
            · intro _
              exact Or.inl rfl
          · simp [hx, beq_eq_false_iff_ne.mpr hx, List.count_cons_of_ne hx]
      · rw [if_neg (by simpa using hd0)]
        obtain ⟨_, ap', hq', hnd', hiff'⟩ := ih
          (fun x => if x == nb then indeg nb - 1 else indeg x) q
        refine ⟨ap', hq', hnd', ?_⟩
        intro x
        rw [hiff' x]
        by_cases hx : x = nb
        · subst hx
          simp only [beq_self_eq_true, if_true, List.count_cons_self]
          push_cast
          omega
        · simp [beq_eq_false_iff_ne.mpr hx, List.count_cons_of_ne hx]

theorem count_adj (g : GraphSchema) (u x : String) :
    (g.adj u).count x =
      (g.edges.filter (fun e => e.source == u && e.target == x)).length := by
  unfold GraphSchema.adj
  rw [List.count_eq_countP, List.countP_map, List.countP_filter,
    ← List.countP_eq_length_filter]
  apply List.countP_congr
  intro e _
  simp only [Function.comp]
  rw [Bool.and_comm]

theorem remIn_append (g : GraphSchema) (result : List String) (node : String)
    (hnode : node ∉ result) (v : String) :
    remIn g result v = remIn g (result ++ [node]) v + (g.adj node).count v := by
  rw [count_adj]
  unfold remIn
  rw [← List.countP_eq_length_filter, ← List.countP_eq_length_filter,
    ← List.countP_eq_length_filter]
  induction g.edges with
  | nil => rfl
  | cons e es ih =>
    rw [List.countP_cons, List.countP_cons, List.countP_cons]
    have hsplit :
        (if (e.target == v && !(result.contains e.source)) = true
          then 1 else 0) =
        (if (e.target == v && !((result ++ [node]).contains e.source)) = true
          then 1 else 0) +
        (if (e.source == node && e.target == v) = true then 1 else 0) := by
      by_cases ht : e.target = v
      · by_cases hc : e.source ∈ result
        · have hcn : e.source ≠ node := fun h => hnode (h ▸ hc)
          simp [ht, hc, hcn]
        · by_cases hn : e.source = node
          · simp [ht, hc, hn, hnode]
          · simp [ht, hc, hn]
      · simp [ht]
    omega

theorem indeg0_eq_remIn_nil (g : GraphSchema) (v : String) :
    g.indeg0 v = (remIn g [] v : Int) := by
  unfold GraphSchema.indeg0 remIn
  congr 2
  apply List.filter_congr
  intro e _
  simp

/-- A nonzero `remIn` yields an edge into `v` from outside `result`. -/
theorem remIn_ne_zero_elim (g : GraphSchema) (result : List String)
    (v : String) (h : remIn g result v ≠ 0) :
    ∃ e ∈ g.edges, e.target = v ∧ e.source ∉ result := by
  unfold remIn at h
  have hne := List.length_pos.mp (Nat.pos_of_ne_zero h)
  rcases List.exists_mem_of_ne_nil _ hne with ⟨e, he⟩
  rcases List.mem_filter.mp he with ⟨hee, hcond⟩
  simp only [Bool.and_eq_true] at hcond
  rcases hcond with ⟨h1, h2⟩
  refine ⟨e, hee, beq_iff_eq.mp h1, ?_⟩
  simpa using h2

/-- An edge into `v` from outside `result` makes `remIn` nonzero. -/
theorem remIn_ne_zero_intro (g : GraphSchema) (result : List String)
    (v : String) (e : GraphEdge) (he : e ∈ g.edges) (ht : e.target = v)
    (hs : e.source ∉ result) : remIn g result v ≠ 0 := by
  unfold remIn
  intro hzero
  have hmem : e ∈ g.edges.filter
      (fun e => e.target == v && !(result.contains e.source)) :=
    List.mem_filter.mpr ⟨he, by simp [ht, hs]⟩
  rw [List.length_eq_zero] at hzero
  rw [hzero] at hmem
  cases hmem

/-- If every member of a nonempty finite set of nodes has an edge-predecessor
inside the set, the graph has a directed cycle. -/
theorem cycle_of_closed_pred (g : GraphSchema) (S : Finset String)
    (hne : S.Nonempty)
    (hpred : ∀ v ∈ S, ∃ u, u ∈ S ∧ edgeRel g u v) : hasCycle g := by
  classical
  obtain ⟨v0, hv0⟩ := hne
  let f : String → String := fun v =>
    if h : ∃ u, u ∈ S ∧ edgeRel g u v then h.choose else v
  have hf : ∀ v ∈ S, f v ∈ S ∧ edgeRel g (f v) v := by
    intro v hv
    obtain ⟨u, hu, hrel⟩ := hpred v hv
    have hex : ∃ u, u ∈ S ∧ edgeRel g u v := ⟨u, hu, hrel⟩
    show (if h : ∃ u, u ∈ S ∧ edgeRel g u v then h.choose else v) ∈ S ∧
      edgeRel g (if h : ∃ u, u ∈ S ∧ edgeRel g u v then h.choose else v) v
    rw [dif_pos hex]
    exact ⟨hex.choose_spec.1, hex.choose_spec.2⟩
  have hiter : ∀ n, f^[n] v0 ∈ S := by
    intro n
    induction n with
    | zero => simpa using hv0
    | succ n ih =>
      rw [Function.iterate_succ_apply']
      exact (hf _ ih).1
  have hchain : ∀ n, ∀ y ∈ S,
      Relation.TransGen (edgeRel g) (f^[n + 1] y) y := by
    intro n
    induction n with
    | zero =>
      intro y hy
      rw [Function.iterate_one]
      exact Relation.TransGen.single (hf y hy).2
    | succ n ih =>
      intro y hy
      rw [Function.iterate_succ_apply]
      exact Relation.TransGen.trans (ih (f y) (hf y hy).1)
        (Relation.TransGen.single (hf y hy).2)
  have hmaps : ∀ n ∈ Finset.range (S.card + 1), f^[n] v0 ∈ S :=
    fun n _ => hiter n
  obtain ⟨i, hi, j, hj, hij, heq⟩ :=
    Finset.exists_ne_map_eq_of_card_lt_of_maps_to
      (by simp) hmaps
  have main : ∀ i j : Nat, i < j → f^[i] v0 = f^[j] v0 → hasCycle g := by
    intro i j hlt he
    have hfix : f^[j - i] (f^[i] v0) = f^[i] v0 := by
      rw [← Function.iterate_add_apply, Nat.sub_add_cancel (le_of_lt hlt)]
      exact he.symm
    have hchain' := hchain (j - i - 1) (f^[i] v0) (hiter i)
    rw [show j - i - 1 + 1 = j - i by omega, hfix] at hchain'
    exact ⟨f^[i] v0, hchain'⟩
  rcases Nat.lt_or_ge i j with hlt | hge
  · exact main i j hlt heq
  · exact main j i (by omega) heq.symm

theorem kahnLoop_spec (g : GraphSchema) (hwf : g.edgesWF = true)
    (hacyc : ¬ hasCycle g) :
    ∀ (fuel : Nat) (indeg : String → Int) (queue result : List String),
      (result ++ queue).Nodup →
      (∀ x ∈ result ++ queue, x ∈ firstDedup g.ids) →
      (∀ v, indeg v = (remIn g result v : Int)) →
      (∀ v ∈ firstDedup g.ids,
        (v ∈ result ++ queue ↔ remIn g result v = 0)) →
      (∀ e ∈ g.edges, e.target ∈ result →
        e.source ∈ result ∧
          result.indexOf e.source < result.indexOf e.target) →
      (firstDedup g.ids).length - result.length < fuel →
      ((kahnLoop g.adj fuel indeg queue result).Nodup ∧
       (∀ x ∈ kahnLoop g.adj fuel indeg queue result,
         x ∈ firstDedup g.ids) ∧
       (∀ v ∈ firstDedup g.ids,
         v ∈ kahnLoop g.adj fuel indeg queue result) ∧
       (∀ e ∈ g.edges,
         e.source ∈ kahnLoop g.adj fuel indeg queue result ∧
         (kahnLoop g.adj fuel indeg queue result).indexOf e.source <
           (kahnLoop g.adj fuel indeg queue result).indexOf e.target)) := by
  intro fuel
  induction fuel with
  | zero =>
    intro indeg queue result _ _ _ _ _ hfuel
    exact absurd hfuel (Nat.not_lt_zero _)
  | succ fuel ih =>
    intro indeg queue result hnodup hmem hI3 hI4 hI5 hfuel
    rcases queue with _ | ⟨node, rest⟩
    · -- queue empty: the loop returns `result`, which must exhaust the ids
      have hL : kahnLoop g.adj (fuel + 1) indeg [] result = result := rfl
      rw [hL]
      have hnodupr : result.Nodup := by simpa using hnodup
      have hall : ∀ v ∈ firstDedup g.ids, v ∈ result := by
        by_contra hnot
        push_neg at hnot
        obtain ⟨v0, hv0D, hv0n⟩ := hnot
        classical
        set S : Finset String := (firstDedup g.ids).toFinset.filter
          (fun v => v ∉ result) with hS
        have hv0S : v0 ∈ S :=
          Finset.mem_filter.mpr ⟨List.mem_toFinset.mpr hv0D, hv0n⟩
        have hpred : ∀ v ∈ S, ∃ u, u ∈ S ∧ edgeRel g u v := by
          intro v hv
          obtain ⟨hvD, hvn⟩ := Finset.mem_filter.mp hv
          have hrem : remIn g result v ≠ 0 := by
            intro h0
            have hmemv := (hI4 v (List.mem_toFinset.mp hvD)).mpr h0
            rw [List.append_nil] at hmemv
            exact hvn hmemv
          obtain ⟨e, he, htgt, hsrc⟩ := remIn_ne_zero_elim g result v hrem
          have hsid : e.source ∈ g.ids := (edgesWF_mem g hwf e he).1
          exact ⟨e.source, Finset.mem_filter.mpr
            ⟨List.mem_toFinset.mpr ((firstDedup_mem g.ids e.source).mpr hsid),
              hsrc⟩, ⟨e, he, rfl, htgt⟩⟩
        exact hacyc (cycle_of_closed_pred g S ⟨v0, hv0S⟩ hpred)
      refine ⟨hnodupr, ?_, hall, ?_⟩
      · intro x hx
        apply hmem x
        rw [List.append_nil]
        exact hx
      · intro e he
        have htD : e.target ∈ firstDedup g.ids :=
          (firstDedup_mem _ _).mpr (edgesWF_mem g hwf e he).2
        exact hI5 e he (hall _ htD)
    · -- dequeue `node`, scan its neighbours, recurse
      rcases hks : kahnScan indeg rest (g.adj node) with ⟨indeg2, queue2⟩
      have hstep1 : kahnLoop g.adj (fuel + 1) indeg (node :: rest) result =
          kahnLoop g.adj fuel (kahnScan indeg rest (g.adj node)).1
            (kahnScan indeg rest (g.adj node)).2 (result ++ [node]) := rfl
      have hstep : kahnLoop g.adj (fuel + 1) indeg (node :: rest) result =
          kahnLoop g.adj fuel indeg2 queue2 (result ++ [node]) := by
        rw [hstep1, hks]
      obtain ⟨hP1, ap, happ, hapnd, hapiff⟩ :=
        kahnScan_spec (g.adj node) indeg rest
      simp only [hks] at hP1 happ
      have hnodeD : node ∈ firstDedup g.ids :=
        hmem node (List.mem_append.mpr (Or.inr (List.mem_cons_self _ _)))
      have hnodenotin : node ∉ result := by
        have hd := List.disjoint_of_nodup_append hnodup
        intro hin
        exact hd hin (List.mem_cons_self _ _)
      have hremnode : remIn g result node = 0 :=
        (hI4 node hnodeD).mp
          (List.mem_append.mpr (Or.inr (List.mem_cons_self _ _)))
      have hcnt0 : ∀ v, remIn g result v = 0 → (g.adj node).count v = 0 := by
        intro v hv
        by_contra hne
        have hvmem : v ∈ g.adj node :=
          List.count_pos_iff.mp (Nat.pos_of_ne_zero hne)
        obtain ⟨e, he, hsrc, htgt⟩ := (mem_adj_iff g node v).mp hvmem
        exact remIn_ne_zero_intro g result v e he htgt
          (by rw [hsrc]; exact hnodenotin) hv
      have hre : (result ++ [node]) ++ rest = result ++ node :: rest :=
        (List.append_cons result node rest).symm
      have hI3n : ∀ v, indeg2 v = (remIn g (result ++ [node]) v : Int) := by
        intro v
        rw [hP1 v, hI3 v]
        have ht := remIn_append g result node hnodenotin v
        push_cast
        omega
      have hapD : ∀ x ∈ ap,
          x ∈ firstDedup g.ids ∧ remIn g result x ≠ 0 := by
        intro x hx
        obtain ⟨h1, h2⟩ := (hapiff x).mp hx
        rw [hI3 x] at h1 h2
        have hxcnt : 0 < (g.adj node).count x := by
          push_cast at h1 h2
          omega
        have hrel := (mem_adj_iff g node x).mp (List.count_pos_iff.mp hxcnt)
        have hxid : x ∈ g.ids := edgeRel_target_mem g hwf hrel
        refine ⟨(firstDedup_mem g.ids x).mpr hxid, ?_⟩
        intro h0
        rw [h0] at h1
        omega
      have hfresh : ∀ x ∈ ap, x ∉ result ++ node :: rest := by
        intro x hx hxin
        exact (hapD x hx).2 ((hI4 x (hapD x hx).1).mp hxin)
      have hnodup2 : ((result ++ [node]) ++ queue2).Nodup := by
        rw [happ, ← List.append_assoc, hre, List.nodup_append]
        exact ⟨hnodup, hapnd, fun x hx1 hx2 => hfresh x hx2 hx1⟩
      have hmem2 : ∀ x ∈ (result ++ [node]) ++ queue2,
          x ∈ firstDedup g.ids := by
        intro x hx
        rw [happ, ← List.append_assoc, hre] at hx
        rcases List.mem_append.mp hx with hx1 | hx2
        · exact hmem x hx1
        · exact (hapD x hx2).1
      have hI4n : ∀ v ∈ firstDedup g.ids,
          (v ∈ (result ++ [node]) ++ queue2 ↔
            remIn g (result ++ [node]) v = 0) := by
        intro v hvD
        have hra := remIn_append g result node hnodenotin v
        constructor
        · intro hv
          rw [happ, ← List.append_assoc, hre] at hv
          rcases List.mem_append.mp hv with hv1 | hv2
          · have h0 : remIn g result v = 0 := (hI4 v hvD).mp hv1
            have hc := hcnt0 v h0
            omega
          · obtain ⟨h1, h2⟩ := (hapiff v).mp hv2
            rw [hI3 v] at h1 h2
            push_cast at h1 h2
            omega
        · intro h0'
          by_cases hc : (g.adj node).count v = 0
          · have h0 : remIn g result v = 0 := by omega
            have hv := (hI4 v hvD).mpr h0
            rw [happ, ← List.append_assoc, hre]
            exact List.mem_append.mpr (Or.inl hv)
          · have hvap : v ∈ ap := by
              apply (hapiff v).mpr
              rw [hI3 v]
              constructor
              · push_cast
                omega
              · push_cast
                omega
            rw [happ]
            exact List.mem_append.mpr
              (Or.inr (List.mem_append.mpr (Or.inr hvap)))
      have hI5n : ∀ e ∈ g.edges, e.target ∈ result ++ [node] →
          e.source ∈ result ++ [node] ∧
            (result ++ [node]).indexOf e.source <
              (result ++ [node]).indexOf e.target := by
        intro e he htin
        rcases List.mem_append.mp htin with ht1 | ht2
        · obtain ⟨hs1, hidx⟩ := hI5 e he ht1
          refine ⟨List.mem_append.mpr (Or.inl hs1), ?_⟩
          rw [List.indexOf_append_of_mem hs1, List.indexOf_append_of_mem ht1]
          exact hidx
        · have htn : e.target = node := List.mem_singleton.mp ht2
          have hsrc : e.source ∈ result := by
            by_contra hnot
            exact remIn_ne_zero_intro g result node e he htn hnot hremnode
          refine ⟨List.mem_append.mpr (Or.inl hsrc), ?_⟩
          rw [List.indexOf_append_of_mem hsrc, htn,
            List.indexOf_append_of_not_mem hnodenotin]
          have hlt := List.indexOf_lt_length.mpr hsrc
          have hz : [node].indexOf node = 0 := by simp
          omega
      have hlen : result.length + 1 ≤ (firstDedup g.ids).length := by
        classical
        have hsub : insert node result.toFinset ⊆
            (firstDedup g.ids).toFinset := by
          intro x hx
          rcases Finset.mem_insert.mp hx with rfl | hx'
          · exact List.mem_toFinset.mpr hnodeD
          · exact List.mem_toFinset.mpr (hmem x
              (List.mem_append.mpr (Or.inl (List.mem_toFinset.mp hx'))))
        have hcard := Finset.card_le_card hsub
        rw [Finset.card_insert_of_not_mem
          (fun hmem' => hnodenotin (List.mem_toFinset.mp hmem'))] at hcard
        have h1 : result.toFinset.card = result.length :=
          List.toFinset_card_of_nodup (hnodup.of_append_left)
        have h2 : (firstDedup g.ids).toFinset.card =
            (firstDedup g.ids).length :=
          List.toFinset_card_of_nodup (firstDedup_nodup _)
        omega
      have hfuel2 : (firstDedup g.ids).length -
          (result ++ [node]).length < fuel := by
        rw [List.length_append, List.length_singleton]
        omega
      rw [hstep]
      exact ih indeg2 queue2 (result ++ [node]) hnodup2 hmem2 hI3n hI4n
        hI5n hfuel2

/-- C1: for every graph that `validate_graph` accepts, `topological_sort`
succeeds and returns a sequence that contains every node id of the graph
exactly once (and nothing else), with every edge's source strictly before
its target. -/
theorem topological_sort_correct (g : GraphSchema)
    (h : validate_graph g = Except.ok ()) :
    ∃ L, topological_sort g = Except.ok L ∧
      (∀ v ∈ L, v ∈ g.ids) ∧
      (∀ i ∈ g.ids, L.count i = 1) ∧
      (∀ e ∈ g.edges, L.indexOf e.source < L.indexOf e.target) := by
  obtain ⟨hce, hcyc⟩ := validate_ok_inv g h
  have hwf : g.edgesWF = true := (checkEdges_ok_iff g).mp hce
  have hacyc : ¬ hasCycle g := by
    intro hcy
    have := (cycleCheck_iff g hwf).mpr hcy
    rw [hcyc] at this
    cases this
  have htop : topological_sort g = Except.ok
      (kahnLoop g.adj (g.nodes.length + 1) g.indeg0
        ((firstDedup g.ids).filter (fun v => g.indeg0 v == 0)) []) := by
    unfold topological_sort
    rw [if_pos hwf]
  have hids : g.ids.length = g.nodes.length := by
    unfold GraphSchema.ids
    rw [List.length_map]
  have hspec := kahnLoop_spec g hwf hacyc (g.nodes.length + 1) g.indeg0
    ((firstDedup g.ids).filter (fun v => g.indeg0 v == 0)) []
    (by
      rw [List.nil_append]
      exact (firstDedup_nodup g.ids).filter _)
    (by
      intro x hx
      rw [List.nil_append] at hx
      exact (List.mem_filter.mp hx).1)
    (fun v => indeg0_eq_remIn_nil g v)
    (by
      intro v hvD
      rw [List.nil_append, List.mem_filter]
      constructor
      · rintro ⟨_, hz⟩
        have : g.indeg0 v = 0 := beq_iff_eq.mp hz
        rw [indeg0_eq_remIn_nil] at this
        exact_mod_cast this
      · intro hz
        refine ⟨hvD, beq_iff_eq.mpr ?_⟩
        rw [indeg0_eq_remIn_nil, hz]
        rfl)
    (by
      intro e _ hmem
      cases hmem)
    (by
      have := firstDedup_length_le g.ids
      simp only [List.length_nil]
      omega)
  obtain ⟨hnd, hsub, hallD, hord⟩ := hspec
  refine ⟨_, htop, ?_, ?_, ?_⟩
  · intro v hv
    exact (firstDedup_mem g.ids v).mp (hsub v hv)
  · intro i hi
    exact List.count_eq_one_of_mem hnd (hallD i ((firstDedup_mem g.ids i).mpr hi))
  · intro e he
    exact (hord e he).2

theorem topological_sort_correct_witness :
    validate_graph egCycleFree = Except.ok () ∧
    ∃ L, topological_sort egCycleFree = Except.ok L ∧
      (∀ v ∈ L, v ∈ egCycleFree.ids) ∧
      (∀ i ∈ egCycleFree.ids, L.count i = 1) ∧
      (∀ e ∈ egCycleFree.edges, L.indexOf e.source < L.indexOf e.target) :=
  ⟨rfl, topological_sort_correct egCycleFree rfl⟩
